import Mathlib

/-! colorls-js: the layout engine, the category resolver and the render pass of `lc.js`

A shallow embedding of the class `ColorLS` of `src/lc.js`.

* A JavaScript string is the list of its UTF-16 code units, so `List.length` is `.length`
  and `===` on strings is equality of lists.
* A table loaded from YAML is the list of its own `(key, value)` properties.
* The file system test `fs.existsSync(p) && fs.lstatSync(p).isDirectory()`, the library
  functions `String.prototype.toLowerCase` and `chalk[color]` and the properties of
  `Object.prototype` are parameters (`Env`).
* `process.stdout.write` appends to the list of written strings.
-/

namespace ColorLS

/-- A JavaScript string as its sequence of UTF-16 code units. -/
abbrev JStr := List Nat

/-- The code units of a string literal of the source (the literals are ASCII). -/
def lit (s : String) : JStr := s.toList.map Char.toNat

/-- A grid: what `chunkify` returns, a list of rows. -/
abbrev Grid := List (List JStr)

/-- An object loaded by `load_from_yaml`: its own properties, in order. -/
abbrev Table := List (JStr × JStr)

/-- `Object.keys(t)`. -/
def Table.keys (t : Table) : List JStr := t.map Prod.fst

/-- `t[k]` for the own properties of `t`; `none` is `undefined`. -/
def Table.get (t : Table) (k : JStr) : Option JStr := List.lookup k t

/-- The four tables of `init_icons`. -/
structure Icons where
  files : Table
  file_aliases : Table
  folders : Table
  folder_aliases : Table

def Icons.file_keys (ic : Icons) : List JStr := ic.files.keys
def Icons.file_alias_keys (ic : Icons) : List JStr := ic.file_aliases.keys
def Icons.folder_keys (ic : Icons) : List JStr := ic.folders.keys
def Icons.folder_alias_keys (ic : Icons) : List JStr := ic.folder_aliases.keys
def Icons.all_files (ic : Icons) : List JStr := ic.file_keys ++ ic.file_alias_keys
def Icons.all_folders (ic : Icons) : List JStr := ic.folder_keys ++ ic.folder_alias_keys

/-- The collaborators of the class that are not part of `lc.js`. -/
structure Env where
  /-- The test `fs.existsSync(input/content) && fs.lstatSync(input/content).isDirectory()`. -/
  isDirectory : JStr → Bool
  /-- The method `String.prototype.toLowerCase`. -/
  toLowerCase : JStr → JStr
  /-- The call `chalk[color](text)`. -/
  chalk : String → JStr → JStr
  /-- The text, in a template literal, of the property that a plain object inherits from
  `Object.prototype` under a name (`constructor`, `toString`, ...); `none` when
  `Object.prototype` has no property of that name. -/
  inherited : JStr → Option JStr

/-- The object `this.count`. The counters start at 0 and grow by 1 for each entry, so they
stay exact integers. -/
structure Count where
  folders : Nat
  recognized_files : Nat
  unrecognized_files : Nat
deriving DecidableEq, Repr

/-- The statement `this.count[increment] += 1` on the three counters. -/
def Count.incr (c : Count) (increment : String) : Count :=
  if increment = "folders" then { c with folders := c.folders + 1 }
  else if increment = "recognized_files" then { c with recognized_files := c.recognized_files + 1 }
  else if increment = "unrecognized_files" then
    { c with unrecognized_files := c.unrecognized_files + 1 }
  else c

/-! ## Layout engine -/

/-- The first loop of `get_chunk`: the entries still to read, the rows pushed so far and
`currentChunk`. Returns the rows pushed and the last `currentChunk`. -/
def get_chunk_loop (chunk_size : Nat) : List JStr → Grid → List JStr → Grid × List JStr
  | [], chunk, currentChunk => (chunk, currentChunk)
  | x :: rest, chunk, currentChunk =>
    if (currentChunk ++ [x]).length = chunk_size then
      get_chunk_loop chunk_size rest (chunk ++ [currentChunk ++ [x]]) []
    else
      get_chunk_loop chunk_size rest chunk (currentChunk ++ [x])

/-- The rows of `get_chunk`: the loop, then `currentChunk` padded with `''` up to
`chunk_size` and pushed, whatever its length. -/
def get_chunk_rows (contents : List JStr) (chunk_size : Nat) : Grid :=
  let r := get_chunk_loop chunk_size contents [] []
  r.1 ++ [r.2 ++ List.replicate (chunk_size - r.2.length) []]

/-- The matrix `transposed` of `get_chunk`: `chunk[0].map((col, i) => chunk.map(row => row[i]))`.
Every row of `chunk` has the length of `chunk[0]`, so `row[i]` is always defined. -/
def transposed (chunk : Grid) : Grid :=
  (List.range (chunk.headD []).length).map (fun i => chunk.map (fun row => row.getD i []))

/-- The call `Math.max(...xs)` on a non-empty list of lengths. -/
def math_max (xs : List Nat) : Nat := xs.foldl max 0

/-- The method `get_chunk`: returns the chunk and the new value of `this.max_widths`. -/
def get_chunk (contents : List JStr) (chunk_size : Nat) : Grid × List Nat :=
  let chunk := get_chunk_rows contents chunk_size
  (chunk, (transposed chunk).map (fun row => math_max (row.map List.length)))

/-- The method `in_line`. -/
def in_line (max_widths : List Nat) (screen_width : Int) (chunk_size : Nat) : Bool :=
  !decide (((max_widths.foldl (fun a b => a + b) 0 : Nat) : Int) + 6 * (chunk_size : Int)
    > screen_width)

/-- The loop of `chunkify`, by recursion on `chunk_size`: the state is the local `chunk`
(`none` is `undefined`) and `this.max_widths`. Returns them with the last `chunk_size`. -/
def chunkify_loop (contents : List JStr) (screen_width : Int) :
    Nat → Option Grid → List Nat → Option Grid × List Nat × Nat
  | 0, chunk, max_widths => (chunk, max_widths, 0)
  | s + 1, chunk, max_widths =>
    if in_line max_widths screen_width (s + 1) || decide (s + 1 ≤ 1) then
      (chunk, max_widths, s + 1)
    else
      chunkify_loop contents screen_width s (some (get_chunk contents s).1)
        (get_chunk contents s).2

/-- The method `chunkify`: returns the grid (`chunk || [this.contents]`) and the value of
`this.max_widths` afterwards. -/
def chunkify (contents : List JStr) (max_widths : List Nat) (screen_width : Int) :
    Grid × List Nat :=
  let r := chunkify_loop contents screen_width contents.length none max_widths
  (r.1.getD [contents], r.2.1)

/-- The value of `this.max_widths` set by the constructor. -/
def initial_max_widths (contents : List JStr) : List Nat := contents.map List.length

/-- The grid of a fresh object: `chunkify` after the constructor. -/
def layout (contents : List JStr) (screen_width : Int) : Grid × List Nat :=
  chunkify contents (initial_max_widths contents) screen_width

/-- The column count of a grid: the length of its rows, read on the first one. -/
def column_count (g : Grid) : Nat := (g.headD []).length

/-- The value of `this.max_widths` when `chunkify` tests the candidate `chunk_size`: the
constructor's for the first candidate, `get_chunk`'s for the others. -/
def widths_at (contents : List JStr) (chunk_size : Nat) : List Nat :=
  if chunk_size = contents.length then initial_max_widths contents
  else (get_chunk contents chunk_size).2

/-- The fit test of `chunkify` for a candidate `chunk_size`. -/
def fits (contents : List JStr) (screen_width : Int) (chunk_size : Nat) : Bool :=
  in_line (widths_at contents chunk_size) screen_width chunk_size

/-- The number of padding cells that `get_chunk` appends. -/
def pad_count (contents : List JStr) (chunk_size : Nat) : Nat :=
  chunk_size - (get_chunk_loop chunk_size contents [] []).2.length

/-- The last candidate size that `chunkify` tests. -/
def final_size (contents : List JStr) (screen_width : Int) : Nat :=
  (chunkify_loop contents screen_width contents.length none (initial_max_widths contents)).2.2

/-! ## Category resolver -/

/-- The call `content.split('.')` for a separator of one code unit: never empty. -/
def split (sep : Nat) : JStr → List JStr
  | [] => [[]]
  | c :: cs =>
    if c = sep then [] :: split sep cs
    else
      match split sep cs with
      | [] => [[c]]
      | seg :: segs => (c :: seg) :: segs

/-- The lookup key of a file: `split[split.length - 1].toLowerCase()`. -/
def file_key (env : Env) (content : JStr) : JStr :=
  env.toLowerCase ((split 46 content).getLastD [])

/-- The method `options`: the display key (`none` is `undefined`), the color and the name
of the counter. -/
def options (env : Env) (ic : Icons) (content : JStr) : Option JStr × String × String :=
  if env.isDirectory content then
    let key := content
    if !ic.all_folders.contains key then
      (some (lit "folder"), "blue", "folders")
    else if !ic.folder_keys.contains key then
      (ic.folder_aliases.get key, "blue", "folders")
    else
      (some key, "blue", "folders")
  else
    let key := file_key env content
    if !ic.all_files.contains key then
      (some (lit "file"), "yellow", "unrecognized_files")
    else if !ic.file_keys.contains key then
      (ic.file_aliases.get key, "green", "recognized_files")
    else
      (some key, "green", "recognized_files")

/-- The conversion of a value to text in a template literal or a property name:
`undefined` becomes the text `undefined`. -/
def to_text : Option JStr → JStr
  | some s => s
  | none => lit "undefined"

/-- The read `t[key]` of a table, as the text it gives in a template literal: the own
property of that name, else the property inherited from `Object.prototype`, else
`undefined`. -/
def Table.read (env : Env) (t : Table) (key : Option JStr) : JStr :=
  match t.get (to_text key) with
  | some v => v
  | none => to_text (env.inherited (to_text key))

/-- The local `value` of `fetch_string`, as text:
`increment === 'folders' ? this.folders[key] : this.files[key]`. -/
def fetch_value (env : Env) (ic : Icons) (key : Option JStr) (increment : String) : JStr :=
  if increment = "folders" then ic.folders.read env key else ic.files.read env key

/-- The method `fetch_string`: the new counters and the returned string. -/
def fetch_string (env : Env) (ic : Icons) (count : Count) (content : JStr)
    (key : Option JStr) (color : String) (increment : String) : Count × JStr :=
  (count.incr increment,
    env.chalk color (fetch_value env ic key increment ++ lit "  " ++ content))

/-! ## Render pass -/

/-- What a render pass changes: the counters and the strings written to the output. -/
structure Render where
  count : Count
  out : List JStr
deriving DecidableEq, Repr

/-- The errors the render pass can throw. -/
inductive Error where
  /-- The exception `RangeError: Invalid array length` of `new Array(n)`. -/
  | invalid_array_length
deriving DecidableEq, Repr

/-- The expression `new Array(max_widths[i] - content.length + 2).join(' ')`: the length is
`NaN` when `max_widths[i]` is `undefined`; an array of `k` holes joins to `k - 1` spaces.
Names are far shorter than `2 ^ 32`, the other bound of an array length. -/
def space (max_widths : List Nat) (i : Nat) (content : JStr) : Except Error JStr :=
  match max_widths[i]? with
  | none => .error .invalid_array_length
  | some w =>
    if (w : Int) - (content.length : Int) + 2 < 0 then .error .invalid_array_length
    else .ok (List.replicate (((w : Int) - (content.length : Int) + 2).toNat - 1) 32)

/-- The loop of `ls_line` from index `i` on: the cells still to read. -/
def ls_line_loop (env : Env) (ic : Icons) (max_widths : List Nat) :
    Nat → List JStr → Render → Except Error Render
  | _, [], r => .ok r
  | i, content :: rest, r =>
    if content.length = 0 then .ok r
    else
      let opt := options env ic content
      let fetch := fetch_string env ic r.count content opt.1 opt.2.1 opt.2.2
      let isFile := env.isDirectory content
      let marker := if isFile then env.chalk "blue" (lit "/ ") else lit "  "
      match space max_widths i content with
      | .error e => .error e
      | .ok sp =>
        ls_line_loop env ic max_widths (i + 1) rest
          { count := fetch.1, out := r.out ++ [fetch.2, marker, sp] }

/-- The method `ls_line`. -/
def ls_line (env : Env) (ic : Icons) (max_widths : List Nat) (chunk : List JStr)
    (r : Render) : Except Error Render :=
  ls_line_loop env ic max_widths 0 chunk { r with out := r.out ++ [lit "\n"] }

/-- The call `this.contents.forEach((chunk) => this.ls_line(chunk))`. -/
def ls_lines (env : Env) (ic : Icons) (max_widths : List Nat) :
    Grid → Render → Except Error Render
  | [], r => .ok r
  | chunk :: chunks, r =>
    match ls_line env ic max_widths chunk r with
    | .error e => .error e
    | .ok r1 => ls_lines env ic max_widths chunks r1

/-- The text of a number in a template literal. -/
def num (n : Nat) : JStr := lit (toString n)

/-- The method `display_report`, on the grid that `ls` stored in `this.contents`. -/
def display_report (env : Env) (input : JStr) (contents : Grid) (r : Render) : Render :=
  let len := (contents.foldl (fun a b => a ++ b) []).length
  { r with out := r.out ++
      [ env.chalk "white" (lit "\n Found " ++ num len ++ lit " contents in directory "),
        env.chalk "blue" input,
        env.chalk "white" (lit "\n\n\tFolders\t\t\t: " ++ num r.count.folders),
        env.chalk "white" (lit "\n\tRecognized files\t: " ++ num r.count.recognized_files),
        env.chalk "white" (lit "\n\tUnrecognized files\t: " ++ num r.count.unrecognized_files),
        lit "\n\n" ] }

/-- The counters set by the constructor. -/
def initial_count : Count := { folders := 0, recognized_files := 0, unrecognized_files := 0 }

/-- The method `ls` on a fresh object with directory `input`, entries `contents`, flag
`report` and terminal width `screen_width`. -/
def ls (env : Env) (ic : Icons) (input : JStr) (contents : List JStr) (report : Bool)
    (screen_width : Int) : Except Error Render :=
  let g := layout contents screen_width
  match ls_lines env ic g.2 g.1 { count := initial_count, out := [] } with
  | .error e => .error e
  | .ok r =>
    let r1 : Render := { r with out := r.out ++ [lit "\n"] }
    .ok (if report then display_report env input g.1 r1 else r1)

/-- The counters after `options` and `fetch_string` ran on each entry of a list, in order. -/
def classify_all (env : Env) (ic : Icons) (count : Count) (entries : List JStr) : Count :=
  entries.foldl (fun cnt e => cnt.incr (options env ic e).2.2) count

/-- The test of `ls_line` that a cell is not the padding cell. -/
def non_empty (content : JStr) : Bool := decide (content.length ≠ 0)

/-! ## The script -/

/-- The call `arg.startsWith('-')`. -/
def starts_with_dash : JStr → Bool
  | 45 :: _ => true
  | _ => false

/-- The flag `report` of the script:
`args.indexOf('--report') !== -1 || args.indexOf('-r') !== -1`. -/
def main_report (args : List JStr) : Bool :=
  args.contains (lit "--report") || args.contains (lit "-r")

/-- The list `filtered` of the script: the arguments that do not start with `-`. -/
def filtered (args : List JStr) : List JStr :=
  args.filter (fun arg => !starts_with_dash arg)

/-- The body of the script: the first arguments of the calls `new ColorLS(input, report)`
that it makes, in order (`none` is `null`), when no call throws. -/
def main_inputs (args : List JStr) : List (Option JStr) :=
  if (filtered args).length = 0 then [none] else args.map some

/-- The assignment `this.input = input || process.cwd()` of the constructor: `null` and
the empty string are falsy. -/
def constructor_input (cwd : JStr) : Option JStr → JStr
  | none => cwd
  | some input => if input.length = 0 then cwd else input

/-- The directories that the script lists, in order, when no call throws. -/
def main_directories (cwd : JStr) (args : List JStr) : List JStr :=
  (main_inputs args).map (constructor_input cwd)

/-! ## Examples -/

/-- Collaborators for the examples: `src` is the only directory, `toLowerCase` is modelled
on the ASCII letters, `chalk` adds nothing. -/
def example_env : Env :=
  { isDirectory := fun s => s == lit "src",
    toLowerCase := fun s => s.map (fun u => if 65 ≤ u ∧ u ≤ 90 then u + 32 else u),
    chalk := fun _ text => text,
    inherited := fun _ => none }

/-- Tables for the examples: `markdown` is an alias of the file key `md`, `source` of the
folder key `src`. -/
def example_icons : Icons :=
  { files := [(lit "md", lit "M"), (lit "file", lit "?")],
    file_aliases := [(lit "markdown", lit "md")],
    folders := [(lit "src", lit "S"), (lit "folder", lit "F")],
    folder_aliases := [(lit "source", lit "src")] }

/-- Tables where `markdown` is at once a primary file key and an alias of `md`. -/
def clash_icons : Icons :=
  { files := [(lit "md", lit "M"), (lit "markdown", lit "W")],
    file_aliases := [(lit "markdown", lit "md")],
    folders := [],
    folder_aliases := [] }

/-- Tables with dangling aliases: `markdown` is an alias of `md` and `source` of `src`,
and neither `md` nor `src` is a primary key. -/
def dangling_icons : Icons :=
  { files := [(lit "file", lit "?")],
    file_aliases := [(lit "markdown", lit "md")],
    folders := [(lit "folder", lit "F")],
    folder_aliases := [(lit "source", lit "src")] }

/-- Two entries of one letter: at width 0 no candidate size passes the fit test. -/
def two_entries : List JStr := [lit "a", lit "b"]

/-- Three entries of one letter: with width 20 they are laid out on two columns. -/
def three_entries : List JStr := [lit "a", lit "b", lit "c"]

/-- The entries of the scenario of the specification. -/
def scenario_entries : List JStr :=
  [lit "src", lit "README.md", lit "main.rs", lit "Makefile"]

/-! ## Lemmas on the layout engine -/

theorem get_chunk_loop_flatten (s : Nat) (xs : List JStr) (chunk : Grid) (cur : List JStr) :
    (get_chunk_loop s xs chunk cur).1.flatten ++ (get_chunk_loop s xs chunk cur).2
      = chunk.flatten ++ cur ++ xs := by
  induction xs generalizing chunk cur with
  | nil => simp [get_chunk_loop]
  | cons x rest ih =>
    simp only [get_chunk_loop]
    split
    · rw [ih]; simp
    · rw [ih]; simp

theorem get_chunk_loop_rows (s : Nat) (xs : List JStr) (chunk : Grid) (cur : List JStr)
    (h : ∀ row ∈ chunk, row.length = s) :
    ∀ row ∈ (get_chunk_loop s xs chunk cur).1, row.length = s := by
  induction xs generalizing chunk cur with
  | nil => simpa [get_chunk_loop] using h
  | cons x rest ih =>
    simp only [get_chunk_loop]
    split
    · next hlen =>
      apply ih
      intro row hrow
      rcases List.mem_append.1 hrow with hr | hr
      · exact h row hr
      · rw [List.mem_singleton.1 hr]; exact hlen
    · exact ih _ _ h

theorem get_chunk_loop_cur (s : Nat) (hs : 0 < s) (xs : List JStr) (chunk : Grid)
    (cur : List JStr) (h : cur.length < s) :
    (get_chunk_loop s xs chunk cur).2.length < s := by
  induction xs generalizing chunk cur with
  | nil => simpa [get_chunk_loop] using h
  | cons x rest ih =>
    simp only [get_chunk_loop]
    split
    · exact ih _ _ (by simpa using hs)
    · next hlen =>
      apply ih
      simp only [List.length_append, List.length_singleton] at hlen ⊢
      omega

theorem pad_count_pos (c : List JStr) (s : Nat) (hs : 0 < s) : 0 < pad_count c s := by
  have := get_chunk_loop_cur s hs c [] [] (by simpa using hs)
  unfold pad_count; omega

theorem pad_count_le (c : List JStr) (s : Nat) : pad_count c s ≤ s := by
  unfold pad_count; omega

theorem get_chunk_rows_flatten (c : List JStr) (s : Nat) :
    (get_chunk_rows c s).flatten = c ++ List.replicate (pad_count c s) [] := by
  have h := get_chunk_loop_flatten s c [] []
  simp only [List.flatten_nil, List.nil_append] at h
  simp only [get_chunk_rows, pad_count, List.flatten_append, List.flatten_cons,
    List.flatten_nil, List.append_nil]
  rw [← List.append_assoc, h]

theorem get_chunk_rows_length (c : List JStr) (s : Nat) (hs : 0 < s) :
    ∀ row ∈ get_chunk_rows c s, row.length = s := by
  intro row hrow
  simp only [get_chunk_rows] at hrow
  rcases List.mem_append.1 hrow with hr | hr
  · exact get_chunk_loop_rows s c [] [] (by simp) row hr
  · rw [List.mem_singleton.1 hr]
    have := get_chunk_loop_cur s hs c [] [] (by simpa using hs)
    simp only [List.length_append, List.length_replicate]
    omega

theorem get_chunk_rows_ne_nil (c : List JStr) (s : Nat) : get_chunk_rows c s ≠ [] := by
  simp [get_chunk_rows]

theorem column_count_get_chunk_rows (c : List JStr) (s : Nat) (hs : 0 < s) :
    column_count (get_chunk_rows c s) = s := by
  have hne := get_chunk_rows_ne_nil c s
  have hlen := get_chunk_rows_length c s hs
  unfold column_count
  cases hg : get_chunk_rows c s with
  | nil => exact absurd hg hne
  | cons row rows =>
    rw [hg] at hlen
    simpa using hlen row (by simp)

theorem le_foldl_max (xs : List Nat) (a : Nat) : a ≤ xs.foldl max a := by
  induction xs generalizing a with
  | nil => simp
  | cons x rest ih =>
    simp only [List.foldl_cons]
    exact le_trans (le_max_left a x) (ih _)

theorem le_math_max (xs : List Nat) (x : Nat) (hx : x ∈ xs) : x ≤ math_max xs := by
  unfold math_max
  generalize 0 = a
  induction xs generalizing a with
  | nil => simp at hx
  | cons y rest ih =>
    simp only [List.foldl_cons]
    rcases List.mem_cons.1 hx with h | h
    · subst h
      exact le_trans (le_max_right a x) (le_foldl_max _ _)
    · exact ih h _

theorem foldl_add_eq_sum (xs : List Nat) (a : Nat) :
    xs.foldl (fun a b => a + b) a = a + xs.sum := by
  induction xs generalizing a with
  | nil => simp
  | cons x rest ih => simp only [List.foldl_cons, List.sum_cons, ih]; omega

theorem in_line_iff (mw : List Nat) (W : Int) (s : Nat) :
    in_line mw W s = true ↔ (mw.sum : Int) + 6 * (s : Int) ≤ W := by
  simp only [in_line, foldl_add_eq_sum, Nat.zero_add, Bool.not_eq_true', decide_eq_false_iff_not,
    not_lt, gt_iff_lt]

theorem in_line_mono (mw : List Nat) (W1 W2 : Int) (s : Nat) (hW : W1 ≤ W2)
    (h : in_line mw W1 s = true) : in_line mw W2 s = true := by
  rw [in_line_iff] at h ⊢
  omega

theorem get_chunk_widths_length (c : List JStr) (s : Nat) (hs : 0 < s) :
    (get_chunk c s).2.length = s := by
  have := column_count_get_chunk_rows c s hs
  unfold column_count at this
  simpa [get_chunk, transposed] using this

/-- Every cell of the chunk is at most as long as the width of its column. -/
theorem get_chunk_widths_ge (c : List JStr) (s : Nat) (hs : 0 < s) (row : List JStr)
    (hrow : row ∈ (get_chunk c s).1) (i : Nat) (hi : i < row.length) :
    ∃ w, (get_chunk c s).2[i]? = some w ∧ (row.getD i []).length ≤ w := by
  have hcc := column_count_get_chunk_rows c s hs
  unfold column_count at hcc
  have hlen : row.length = s := get_chunk_rows_length c s hs row hrow
  have his : i < s := by omega
  refine ⟨math_max ((get_chunk_rows c s).map (fun r => (r.getD i []).length)), ?_, ?_⟩
  · simp only [get_chunk, transposed, hcc, List.map_map, List.getElem?_map,
      List.getElem?_range his, Option.map_some', Function.comp_def]
  · apply le_math_max
    exact List.mem_map.2 ⟨row, hrow, rfl⟩

theorem chunkify_loop_spec (c : List JStr) (W : Int) (s : Nat) (chunk : Option Grid)
    (mw : List Nat) :
    (chunkify_loop c W s chunk mw).2.2 ≤ s ∧
    (1 ≤ s → 1 ≤ (chunkify_loop c W s chunk mw).2.2) ∧
    ((chunkify_loop c W s chunk mw).2.2 = s →
      (chunkify_loop c W s chunk mw).1 = chunk ∧ (chunkify_loop c W s chunk mw).2.1 = mw) ∧
    ((chunkify_loop c W s chunk mw).2.2 < s →
      (chunkify_loop c W s chunk mw).1
        = some (get_chunk c (chunkify_loop c W s chunk mw).2.2).1 ∧
      (chunkify_loop c W s chunk mw).2.1
        = (get_chunk c (chunkify_loop c W s chunk mw).2.2).2 ∧
      in_line mw W s = false) ∧
    (∀ t, (chunkify_loop c W s chunk mw).2.2 < t → t < s →
      in_line (get_chunk c t).2 W t = false) ∧
    (in_line (chunkify_loop c W s chunk mw).2.1 W (chunkify_loop c W s chunk mw).2.2 = true ∨
      (chunkify_loop c W s chunk mw).2.2 ≤ 1) := by
  induction s generalizing chunk mw with
  | zero => simp [chunkify_loop]
  | succ s ih =>
    by_cases hcond : (in_line mw W (s + 1) || decide (s + 1 ≤ 1)) = true
    · have hr : chunkify_loop c W (s + 1) chunk mw = (chunk, mw, s + 1) := by
        simp only [chunkify_loop, hcond, if_true]
      rw [hr]
      refine ⟨le_refl _, fun h => h, fun _ => ⟨rfl, rfl⟩, fun h => absurd h (lt_irrefl _),
        fun t h1 h2 => absurd (lt_trans h1 h2) (lt_irrefl _), ?_⟩
      simpa using hcond
    · have hr : chunkify_loop c W (s + 1) chunk mw
          = chunkify_loop c W s (some (get_chunk c s).1) (get_chunk c s).2 := by
        simp only [chunkify_loop, hcond, if_false, Bool.false_eq_true]
      rw [hr]
      have hcond2 : in_line mw W (s + 1) = false ∧ 1 ≤ s := by
        simp only [Bool.or_eq_true, decide_eq_true_eq, not_or, Bool.not_eq_true] at hcond
        exact ⟨hcond.1, by omega⟩
      obtain ⟨h1, h2, h3, h4, h5, h6⟩ := ih (some (get_chunk c s).1) (get_chunk c s).2
      refine ⟨by omega, fun _ => h2 hcond2.2, fun h => by omega, fun _ => ?_, ?_, h6⟩
      · rcases Nat.lt_or_ge (chunkify_loop c W s (some (get_chunk c s).1) (get_chunk c s).2).2.2 s
          with hlt | hge
        · exact ⟨(h4 hlt).1, (h4 hlt).2.1, hcond2.1⟩
        · have heq := le_antisymm h1 hge
          obtain ⟨e1, e2⟩ := h3 heq
          refine ⟨?_, ?_, hcond2.1⟩
          · rw [e1, heq]
          · rw [e2, heq]
      · intro t ht1 ht2
        rcases Nat.lt_or_ge t s with hlt | hge
        · exact h5 t ht1 hlt
        · have hts : t = s := by omega
          subst hts
          exact (h4 ht1).2.2

theorem layout_eq (c : List JStr) (W : Int) :
    layout c W = (if final_size c W = c.length then [c] else get_chunk_rows c (final_size c W),
      widths_at c (final_size c W)) := by
  obtain ⟨h1, _, h3, h4, _, _⟩ := chunkify_loop_spec c W c.length none (initial_max_widths c)
  unfold layout chunkify widths_at
  by_cases heq : final_size c W = c.length
  · obtain ⟨e1, e2⟩ := h3 heq
    simp only [heq, if_true]
    rw [e1, e2]
    rfl
  · have hlt : final_size c W < c.length := lt_of_le_of_ne h1 heq
    obtain ⟨e1, e2, _⟩ := h4 hlt
    simp only [heq, if_false]
    rw [e1, e2]
    rfl

theorem final_size_le (c : List JStr) (W : Int) : final_size c W ≤ c.length :=
  (chunkify_loop_spec c W c.length none (initial_max_widths c)).1

theorem final_size_pos (c : List JStr) (W : Int) (hn : 1 ≤ c.length) : 1 ≤ final_size c W :=
  (chunkify_loop_spec c W c.length none (initial_max_widths c)).2.1 hn

theorem column_count_layout (c : List JStr) (W : Int) :
    column_count (layout c W).1 = final_size c W := by
  rw [layout_eq]
  by_cases heq : final_size c W = c.length
  · simp [heq, column_count]
  · simp only [heq, if_false]
    have hlt : final_size c W < c.length := lt_of_le_of_ne (final_size_le c W) heq
    have hpos : 0 < final_size c W := final_size_pos c W (by omega)
    exact column_count_get_chunk_rows c _ hpos

theorem fits_final_size (c : List JStr) (W : Int) :
    fits c W (final_size c W) = true ∨ final_size c W ≤ 1 := by
  have h6 := (chunkify_loop_spec c W c.length none (initial_max_widths c)).2.2.2.2.2
  have hw : (layout c W).2 = widths_at c (final_size c W) := by rw [layout_eq]
  have hw2 : (layout c W).2
      = (chunkify_loop c W c.length none (initial_max_widths c)).2.1 := rfl
  rw [← hw2, hw] at h6
  exact h6

theorem fits_above_final_size (c : List JStr) (W : Int) (t : Nat)
    (h1 : final_size c W < t) (h2 : t ≤ c.length) : fits c W t = false := by
  obtain ⟨_, _, _, h4, h5, _⟩ := chunkify_loop_spec c W c.length none (initial_max_widths c)
  unfold fits widths_at
  by_cases heq : t = c.length
  · simp only [heq, if_true]
    have hlt : final_size c W < c.length := by omega
    exact (h4 hlt).2.2
  · simp only [heq, if_false]
    exact h5 t h1 (by omega)

theorem fits_mono (c : List JStr) (W1 W2 : Int) (t : Nat) (hW : W1 ≤ W2)
    (h : fits c W1 t = true) : fits c W2 t = true :=
  in_line_mono _ W1 W2 t hW h

theorem layout_rows_length (c : List JStr) (W : Int) :
    ∀ row ∈ (layout c W).1, row.length = column_count (layout c W).1 := by
  rw [column_count_layout]
  rw [layout_eq]
  by_cases heq : final_size c W = c.length
  · simp [heq]
  · simp only [heq, if_false]
    have hlt : final_size c W < c.length := lt_of_le_of_ne (final_size_le c W) heq
    exact get_chunk_rows_length c _ (final_size_pos c W (by omega))

theorem layout_flatten (c : List JStr) (W : Int) :
    (layout c W).1.flatten
      = c ++ List.replicate (if final_size c W = c.length then 0
          else pad_count c (final_size c W)) [] := by
  rw [layout_eq]
  by_cases heq : final_size c W = c.length
  · simp [heq]
  · simp only [heq, if_false]
    exact get_chunk_rows_flatten c _

theorem length_flatten_of_rows (g : Grid) (s : Nat) (h : ∀ row ∈ g, row.length = s) :
    g.flatten.length = g.length * s := by
  induction g with
  | nil => simp
  | cons row rows ih =>
    have h1 : row.length = s := h row (by simp)
    have h2 := ih (fun r hr => h r (List.mem_cons_of_mem _ hr))
    simp only [List.flatten_cons, List.length_append, List.length_cons, h1, h2]
    rw [Nat.add_mul, Nat.one_mul, Nat.add_comm]

theorem getElem?_flatten_of_rows (g : Grid) (s : Nat) (hs : 0 < s)
    (h : ∀ row ∈ g, row.length = s) (k : Nat) :
    g.flatten[k]? = (g[k / s]?).bind (fun row => row[k % s]?) := by
  induction g generalizing k with
  | nil => simp
  | cons row rows ih =>
    have h1 : row.length = s := h row (by simp)
    have h2 := ih (fun r hr => h r (List.mem_cons_of_mem _ hr))
    simp only [List.flatten_cons]
    rcases Nat.lt_or_ge k s with hk | hk
    · rw [List.getElem?_append_left (by omega)]
      simp [Nat.div_eq_of_lt hk, Nat.mod_eq_of_lt hk]
    · rw [List.getElem?_append_right (by omega), h1, h2 (k - s)]
      obtain ⟨d, rfl⟩ : ∃ d, k = d + s := ⟨k - s, by omega⟩
      have e1 : (d + s) / s = d / s + 1 := Nat.add_div_right d hs
      have e2 : (d + s) % s = d % s := Nat.add_mod_right d s
      simp [e1, e2]

/-! ## Lemmas on the resolver -/

theorem split_ne_nil (sep : Nat) (s : JStr) : split sep s ≠ [] := by
  induction s with
  | nil => simp [split]
  | cons c cs ih =>
    simp only [split]
    split
    · simp
    · split <;> simp

theorem split_of_not_mem (sep : Nat) (s : JStr) (h : sep ∉ s) : split sep s = [s] := by
  induction s with
  | nil => simp [split]
  | cons c cs ih =>
    have hc : ¬ c = sep := fun e => h (by simp [e])
    have hcs : sep ∉ cs := fun e => h (List.mem_cons_of_mem _ e)
    simp [split, hc, ih hcs]

theorem getLastD_split_cons (sep c : Nat) (cs : JStr) (hcs : sep ∈ cs) :
    (split sep (c :: cs)).getLastD [] = (split sep cs).getLastD [] := by
  have hne := split_ne_nil sep cs
  have hlen : 2 ≤ (split sep cs).length := by
    clear hne
    induction cs with
    | nil => simp at hcs
    | cons d ds ih =>
      simp only [split]
      split
      · have := split_ne_nil sep ds
        cases hd : split sep ds with
        | nil => exact absurd hd this
        | cons a b => simp
      · next hd =>
        have hds : sep ∈ ds := by
          rcases List.mem_cons.1 hcs with e | e
          · exact absurd e.symm hd
          · exact e
        have := ih hds
        cases hsp : split sep ds with
        | nil => rw [hsp] at this; simp at this
        | cons a b => rw [hsp] at this; simpa using this
  simp only [split]
  cases hsp : split sep cs with
  | nil => exact absurd hsp hne
  | cons seg segs =>
    rw [hsp] at hlen
    cases segs with
    | nil => simp at hlen
    | cons seg2 segs2 =>
      split <;> simp [List.getLastD]

theorem getLastD_split_append (sep : Nat) (pre suf : JStr) :
    (split sep (pre ++ sep :: suf)).getLastD [] = (split sep suf).getLastD [] := by
  induction pre with
  | nil =>
    have hne := split_ne_nil sep suf
    simp only [List.nil_append, split, if_true]
    cases hsp : split sep suf with
    | nil => exact absurd hsp hne
    | cons a b => simp [List.getLastD]
  | cons c cs ih =>
    rw [List.cons_append, getLastD_split_cons sep c _ (by simp), ih]

theorem exists_last_sep (sep : Nat) (s : JStr) :
    sep ∉ s ∨ ∃ pre suf, s = pre ++ sep :: suf ∧ sep ∉ suf := by
  induction s with
  | nil => simp
  | cons c cs ih =>
    rcases ih with h | ⟨pre, suf, e, h⟩
    · by_cases hc : c = sep
      · exact Or.inr ⟨[], cs, by simp [hc], h⟩
      · refine Or.inl ?_
        intro hm
        rcases List.mem_cons.1 hm with e | e
        · exact hc e.symm
        · exact h e
    · exact Or.inr ⟨c :: pre, suf, by simp [e], h⟩

theorem file_key_of_not_mem (env : Env) (content : JStr) (h : 46 ∉ content) :
    file_key env content = env.toLowerCase content := by
  simp [file_key, split_of_not_mem 46 content h, List.getLastD]

theorem file_key_append (env : Env) (pre suf : JStr) (h : 46 ∉ suf) :
    file_key env (pre ++ 46 :: suf) = env.toLowerCase suf := by
  unfold file_key
  rw [getLastD_split_append, split_of_not_mem 46 suf h]
  rfl

theorem get_isSome_of_mem_keys (t : Table) (k : JStr) (h : k ∈ t.keys) :
    ∃ v, t.get k = some v := by
  induction t with
  | nil => simp [Table.keys] at h
  | cons p rest ih =>
    obtain ⟨k1, v1⟩ := p
    by_cases hk : k = k1
    · subst hk
      exact ⟨v1, by simp [Table.get, List.lookup]⟩
    · have hm : k ∈ Table.keys rest := by
        simp only [Table.keys, List.map_cons, List.mem_cons] at h
        rcases h with e | e
        · exact absurd e hk
        · exact e
      obtain ⟨v, hv⟩ := ih hm
      refine ⟨v, ?_⟩
      have hb : (k == k1) = false := by simpa using hk
      simp only [Table.get, List.lookup, hb]
      exact hv

theorem options_directory (env : Env) (ic : Icons) (content : JStr)
    (hd : env.isDirectory content = true) :
    options env ic content =
      if content ∉ ic.folder_keys ∧ content ∉ ic.folder_alias_keys then
        (some (lit "folder"), "blue", "folders")
      else if content ∈ ic.folder_keys then (some content, "blue", "folders")
      else (ic.folder_aliases.get content, "blue", "folders") := by
  unfold options
  simp only [hd, if_true, Icons.all_folders, List.contains, List.elem_eq_mem, List.mem_append]
  by_cases h1 : content ∈ ic.folder_keys <;> by_cases h2 : content ∈ ic.folder_alias_keys <;>
    simp [h1, h2]

theorem options_file (env : Env) (ic : Icons) (content : JStr)
    (hd : env.isDirectory content = false) :
    options env ic content =
      if file_key env content ∉ ic.file_keys ∧ file_key env content ∉ ic.file_alias_keys then
        (some (lit "file"), "yellow", "unrecognized_files")
      else if file_key env content ∈ ic.file_keys then
        (some (file_key env content), "green", "recognized_files")
      else (ic.file_aliases.get (file_key env content), "green", "recognized_files") := by
  unfold options
  simp only [hd, Bool.false_eq_true, if_false, Icons.all_files, List.contains, List.elem_eq_mem,
    List.mem_append]
  by_cases h1 : file_key env content ∈ ic.file_keys <;>
    by_cases h2 : file_key env content ∈ ic.file_alias_keys <;> simp [h1, h2]

theorem options_counter (env : Env) (ic : Icons) (content : JStr) :
    (options env ic content).2.2 = "folders" ∨
    (options env ic content).2.2 = "recognized_files" ∨
    (options env ic content).2.2 = "unrecognized_files" := by
  cases hd : env.isDirectory content
  · rw [options_file env ic content hd]
    split
    · simp
    · split <;> simp
  · rw [options_directory env ic content hd]
    split
    · simp
    · split <;> simp

/-! ## Lemmas on the render pass -/

theorem space_ok (mw : List Nat) (i : Nat) (content : JStr) (w : Nat)
    (hw : mw[i]? = some w) (hle : content.length ≤ w) :
    space mw i content = .ok (List.replicate (w - content.length + 1) 32) := by
  have h1 : ¬ ((w : Int) - (content.length : Int) + 2 < 0) := by omega
  have h2 : ((w : Int) - (content.length : Int) + 2).toNat - 1 = w - content.length + 1 := by
    omega
  simp only [space, hw, h1, if_false, h2]

theorem ls_line_loop_ok (env : Env) (ic : Icons) (mw : List Nat) (row : List JStr) :
    ∀ (i : Nat) (r : Render),
      (∀ j, j < row.length → ∃ w, mw[i + j]? = some w ∧ (row.getD j []).length ≤ w) →
      ∃ r1, ls_line_loop env ic mw i row r = .ok r1 ∧
        r1.count = classify_all env ic r.count (row.takeWhile non_empty) := by
  induction row with
  | nil => intro i r _; exact ⟨r, rfl, rfl⟩
  | cons content rest ih =>
    intro i r h
    by_cases hlen : content.length = 0
    · refine ⟨r, by simp [ls_line_loop, hlen], ?_⟩
      simp [List.takeWhile, non_empty, hlen, classify_all]
    · obtain ⟨w, hw, hle⟩ := h 0 (by simp)
      simp only [Nat.add_zero, List.getD_cons_zero] at hw hle
      have hrest : ∀ j, j < rest.length →
          ∃ w, mw[i + 1 + j]? = some w ∧ (rest.getD j []).length ≤ w := by
        intro j hj
        obtain ⟨w1, hw1, hle1⟩ := h (j + 1) (by simpa using hj)
        refine ⟨w1, ?_, ?_⟩
        · rw [← hw1]; congr 1; omega
        · simpa using hle1
      obtain ⟨r1, hr1, hc1⟩ := ih (i + 1)
        { count := (fetch_string env ic r.count content (options env ic content).1
            (options env ic content).2.1 (options env ic content).2.2).1,
          out := r.out ++ [(fetch_string env ic r.count content (options env ic content).1
            (options env ic content).2.1 (options env ic content).2.2).2,
            if env.isDirectory content then env.chalk "blue" (lit "/ ") else lit "  ",
            List.replicate (w - content.length + 1) 32] } hrest
      refine ⟨r1, ?_, ?_⟩
      · simp only [ls_line_loop, hlen, if_false, space_ok mw i content w hw hle]
        exact hr1
      · rw [hc1]
        have hne : non_empty content = true := by simp [non_empty, hlen]
        simp [List.takeWhile, hne, classify_all, fetch_string]

theorem classify_all_append (env : Env) (ic : Icons) (count : Count) (xs ys : List JStr) :
    classify_all env ic count (xs ++ ys)
      = classify_all env ic (classify_all env ic count xs) ys := by
  simp [classify_all, List.foldl_append]

theorem ls_lines_ok (env : Env) (ic : Icons) (mw : List Nat) (g : Grid) :
    ∀ (r : Render),
      (∀ row ∈ g, ∀ j, j < row.length →
        ∃ w, mw[j]? = some w ∧ (row.getD j []).length ≤ w) →
      ∃ r1, ls_lines env ic mw g r = .ok r1 ∧
        r1.count = classify_all env ic r.count (g.map (List.takeWhile non_empty)).flatten := by
  induction g with
  | nil => intro r _; exact ⟨r, rfl, rfl⟩
  | cons row rows ih =>
    intro r h
    obtain ⟨r1, hr1, hc1⟩ := ls_line_loop_ok env ic mw row 0
      { r with out := r.out ++ [lit "\n"] }
      (fun j hj => by simpa using h row (by simp) j hj)
    obtain ⟨r2, hr2, hc2⟩ := ih r1 (fun row1 hrow1 => h row1 (List.mem_cons_of_mem _ hrow1))
    refine ⟨r2, ?_, ?_⟩
    · simp only [ls_lines, ls_line, hr1]
      exact hr2
    · rw [hc2, hc1]
      simp [classify_all_append]

/-- Every cell of the grid is at most as long as the surviving width of its column. -/
theorem layout_widths_ge (c : List JStr) (W : Int) (row : List JStr)
    (hrow : row ∈ (layout c W).1) (j : Nat) (hj : j < row.length) :
    ∃ w, (layout c W).2[j]? = some w ∧ (row.getD j []).length ≤ w := by
  rw [layout_eq] at hrow ⊢
  by_cases heq : final_size c W = c.length
  · simp only [heq, if_true, List.mem_singleton] at hrow
    subst hrow
    refine ⟨(row.getD j []).length, ?_, le_refl _⟩
    simp [widths_at, heq, initial_max_widths, List.getD_eq_getElem?_getD, hj]
  · simp only [heq, if_false] at hrow
    have hlt : final_size c W < c.length := lt_of_le_of_ne (final_size_le c W) heq
    simp only [widths_at, heq, if_false]
    exact get_chunk_widths_ge c _ (final_size_pos c W (by omega)) row hrow j hj

theorem takeWhile_of_all {α : Type} (p : α → Bool) (l : List α) (h : ∀ a ∈ l, p a = true) :
    l.takeWhile p = l := by
  induction l with
  | nil => rfl
  | cons a rest ih =>
    simp [List.takeWhile, h a (by simp), ih (fun b hb => h b (List.mem_cons_of_mem _ hb))]

theorem flatten_map_takeWhile (g : Grid) (h : ∀ row ∈ g, ∀ e ∈ row, non_empty e = true) :
    (g.map (List.takeWhile non_empty)).flatten = g.flatten := by
  induction g with
  | nil => rfl
  | cons row rows ih =>
    simp only [List.map_cons, List.flatten_cons]
    rw [takeWhile_of_all non_empty row (h row (by simp)),
      ih (fun r hr => h r (List.mem_cons_of_mem _ hr))]

theorem get_chunk_rows_processed (c : List JStr) (s : Nat)
    (h : ∀ e ∈ c, non_empty e = true) :
    ((get_chunk_rows c s).map (List.takeWhile non_empty)).flatten = c := by
  have hf := get_chunk_loop_flatten s c [] []
  simp only [List.flatten_nil, List.nil_append] at hf
  have h1 : ∀ row ∈ (get_chunk_loop s c [] []).1, ∀ e ∈ row, non_empty e = true := by
    intro row hrow e he
    apply h
    rw [← hf]
    exact List.mem_append_left _ (List.mem_flatten.2 ⟨row, hrow, he⟩)
  have h2 : ∀ e ∈ (get_chunk_loop s c [] []).2, non_empty e = true := by
    intro e he
    apply h
    rw [← hf]
    exact List.mem_append_right _ he
  have h3 : ∀ k, (List.replicate k ([] : JStr)).takeWhile non_empty = [] := by
    intro k
    cases k with
    | zero => rfl
    | succ k => simp [List.replicate, List.takeWhile, non_empty]
  simp only [get_chunk_rows, List.map_append, List.flatten_append, List.map_cons, List.map_nil,
    List.flatten_cons, List.flatten_nil, List.append_nil]
  rw [flatten_map_takeWhile _ h1, List.takeWhile_append_of_pos h2, h3, List.append_nil, hf]

theorem layout_processed (c : List JStr) (W : Int) (h : ∀ e ∈ c, e ≠ []) :
    ((layout c W).1.map (List.takeWhile non_empty)).flatten = c := by
  have hne : ∀ e ∈ c, non_empty e = true := by
    intro e he
    have := h e he
    simpa [non_empty] using this
  rw [layout_eq]
  by_cases heq : final_size c W = c.length
  · simp [heq, takeWhile_of_all non_empty c hne]
  · simp only [heq, if_false]
    exact get_chunk_rows_processed c _ hne

theorem classify_all_counts (env : Env) (ic : Icons) (entries : List JStr) :
    ∀ count : Count,
      (classify_all env ic count entries).folders
        = count.folders + entries.countP (fun e => (options env ic e).2.2 == "folders") ∧
      (classify_all env ic count entries).recognized_files
        = count.recognized_files
          + entries.countP (fun e => (options env ic e).2.2 == "recognized_files") ∧
      (classify_all env ic count entries).unrecognized_files
        = count.unrecognized_files
          + entries.countP (fun e => (options env ic e).2.2 == "unrecognized_files") ∧
      (classify_all env ic count entries).folders
        + (classify_all env ic count entries).recognized_files
        + (classify_all env ic count entries).unrecognized_files
        = count.folders + count.recognized_files + count.unrecognized_files
          + entries.length := by
  induction entries with
  | nil => intro count; simp [classify_all]
  | cons e rest ih =>
    intro count
    have hstep : classify_all env ic count (e :: rest)
        = classify_all env ic (count.incr (options env ic e).2.2) rest := rfl
    rw [hstep]
    obtain ⟨h1, h2, h3, h4⟩ := ih (count.incr (options env ic e).2.2)
    rw [h1, h2, h3]
    rcases options_counter env ic e with hc | hc | hc <;>
      simp [hc, Count.incr, List.countP_cons] <;> omega

theorem mem_keys_of_get (t : Table) (k v : JStr) (h : t.get k = some v) : k ∈ t.keys := by
  induction t with
  | nil => simp [Table.get, List.lookup] at h
  | cons p rest ih =>
    obtain ⟨k1, v1⟩ := p
    by_cases hk : k = k1
    · simp [Table.keys, hk]
    · have hb : (k == k1) = false := by simpa using hk
      simp only [Table.get, List.lookup, hb] at h
      have := ih h
      simp only [Table.keys, List.map_cons, List.mem_cons] at this ⊢
      exact Or.inr this

/-! ## The layout claims -/

/-- C1: for a list of `n ≥ 1` entries the column count chosen by `chunkify` lies in `1..n`,
every larger candidate up to `n` fails the fit test, the chosen count passes the fit test
as soon as some candidate of `1..n` passes, and it is `1` when none passes; the fit test of
a candidate `t` is that the sum of the column widths computed for `t`, plus `6 * t`, is at
most the terminal width. -/
theorem C1_column_count_largest_fit (c : List JStr) (W : Int) (hn : 1 ≤ c.length) :
    1 ≤ column_count (layout c W).1 ∧
    column_count (layout c W).1 ≤ c.length ∧
    (∀ t, column_count (layout c W).1 < t → t ≤ c.length → fits c W t = false) ∧
    ((∃ t, 1 ≤ t ∧ t ≤ c.length ∧ fits c W t = true) →
      fits c W (column_count (layout c W).1) = true) ∧
    ((∀ t, 1 ≤ t → t ≤ c.length → fits c W t = false) →
      column_count (layout c W).1 = 1) ∧
    (∀ t, fits c W t = true ↔ ((widths_at c t).sum : Int) + 6 * (t : Int) ≤ W) := by
  rw [column_count_layout]
  have hpos := final_size_pos c W hn
  have hle := final_size_le c W
  have hab := fits_above_final_size c W
  refine ⟨hpos, hle, hab, ?_, ?_, fun t => in_line_iff _ W t⟩
  · rintro ⟨t, ht1, ht2, ht3⟩
    rcases fits_final_size c W with h | h
    · exact h
    · have h1 : final_size c W = 1 := by omega
      rcases Nat.lt_or_ge (final_size c W) t with hlt | hge
      · rw [hab t hlt ht2] at ht3
        exact absurd ht3 (by simp)
      · have : t = final_size c W := by omega
        rw [← this]
        exact ht3
  · intro hall
    rcases fits_final_size c W with h | h
    · rw [hall _ hpos hle] at h
      exact absurd h (by simp)
    · omega

/-- C1 at three one-letter entries and width 20: two columns are chosen and three fail. -/
theorem C1_column_count_largest_fit_witness :
    1 ≤ three_entries.length ∧ column_count (layout three_entries 20).1 = 2 ∧
      fits three_entries 20 3 = false ∧
      fits three_entries 20 (column_count (layout three_entries 20).1) = true :=
  ⟨by decide, by decide,
    (C1_column_count_largest_fit three_entries 20 (by decide)).2.2.1 3 (by decide)
      (by decide),
    (C1_column_count_largest_fit three_entries 20 (by decide)).2.2.2.1
      ⟨2, by decide, by decide, by decide⟩⟩

/-- C2: for a fixed entry list the column count chosen by `chunkify` is monotone in the
terminal width. -/
theorem C2_column_count_monotone (c : List JStr) (W1 W2 : Int) (hW : W1 ≤ W2) :
    column_count (layout c W1).1 ≤ column_count (layout c W2).1 := by
  rw [column_count_layout, column_count_layout]
  by_contra hlt
  have hlt : final_size c W2 < final_size c W1 := by omega
  have hle1 := final_size_le c W1
  have hfail := fits_above_final_size c W2 (final_size c W1) hlt hle1
  rcases fits_final_size c W1 with h | h
  · rw [fits_mono c W1 W2 _ hW h] at hfail
    exact absurd hfail (by simp)
  · have hpos2 := final_size_pos c W2 (by omega)
    omega

/-- C2 at three one-letter entries, widths 14 and 24: two columns, then three. -/
theorem C2_column_count_monotone_witness :
    (14 : Int) ≤ 24 ∧ column_count (layout three_entries 14).1 = 2 ∧
      column_count (layout three_entries 24).1 = 3 ∧
      column_count (layout three_entries 14).1
        ≤ column_count (layout three_entries 24).1 :=
  ⟨by decide, by decide, by decide,
    C2_column_count_monotone three_entries 14 24 (by decide)⟩

/-- C3: when no entry name is empty, the non-empty cells of the grid returned by
`chunkify`, read row by row, are the original entries, and the cells of the grid are those
entries followed by empty strings only. -/
theorem C3_grid_completeness (c : List JStr) (W : Int) (h : ∀ e ∈ c, e ≠ []) :
    (layout c W).1.flatten.filter non_empty = c ∧
    ∃ k, (layout c W).1.flatten = c ++ List.replicate k [] := by
  have hne : ∀ e ∈ c, non_empty e = true := by
    intro e he
    have := h e he
    simpa [non_empty] using this
  have hpad : ∀ k, (List.replicate k ([] : JStr)).filter non_empty = [] := by
    intro k
    simp [List.filter_replicate, non_empty]
  refine ⟨?_, _, layout_flatten c W⟩
  rw [layout_flatten, List.filter_append, hpad, List.append_nil]
  exact List.filter_eq_self.2 hne

/-- C3 at three one-letter entries and width 20: one padding cell after the entries. -/
theorem C3_grid_completeness_witness :
    (layout three_entries 20).1 = [[lit "a", lit "b"], [lit "c", lit ""]] ∧
      (layout three_entries 20).1.flatten.filter non_empty = three_entries :=
  ⟨by decide,
    (C3_grid_completeness three_entries 20 (by decide)).1⟩

/-- C4: when the accepted column count is greater than 1, the sum of the surviving column
widths plus 6 per column is at most the terminal width. -/
theorem C4_fit_invariant (c : List JStr) (W : Int)
    (h : 1 < column_count (layout c W).1) :
    ((layout c W).2.sum : Int) + 6 * (column_count (layout c W).1 : Int) ≤ W := by
  rw [column_count_layout] at h ⊢
  have hw : (layout c W).2 = widths_at c (final_size c W) := by rw [layout_eq]
  rw [hw, ← in_line_iff]
  rcases fits_final_size c W with h1 | h1
  · exact h1
  · omega

/-- C4 at three one-letter entries and width 20: two columns of width 1, and 14 ≤ 20. -/
theorem C4_fit_invariant_witness :
    1 < column_count (layout three_entries 20).1 ∧
      ((layout three_entries 20).2.sum : Int)
        + 6 * (column_count (layout three_entries 20).1 : Int) ≤ 20 :=
  ⟨by decide, C4_fit_invariant three_entries 20 (by decide)⟩

/-- The rows of the grid hold the entries and the padding cells: `rows * column_count` is
the entry count plus the number of padding cells. -/
theorem layout_cells (c : List JStr) (W : Int) :
    (layout c W).1.length * column_count (layout c W).1
      = c.length + (if final_size c W = c.length then 0 else pad_count c (final_size c W)) := by
  rw [← length_flatten_of_rows _ _ (layout_rows_length c W), layout_flatten]
  simp

/-- When the entry count is a multiple of the chunk size, `get_chunk` pads the empty last
`currentChunk` to a full row of empty strings and pushes it. -/
theorem get_chunk_pushes_empty_run :
    (layout [[97], [98]] 0).1 = [[[97]], [[98]], [[]]] ∧
    (layout [[97], [98], [99], [100]] 20).1 = [[[97], [98]], [[99], [100]], [[], []]] := by
  decide

/-- C5, claim as stated, fails on the empty entry list: the grid is one row of no cell, so
`rows * column_count < entry_count + column_count` reads `0 < 0`. -/
theorem C5_grid_shape_counterexample :
    (layout [] 80).1 = [[]] ∧
    ¬ ((layout [] 80).1.length * column_count (layout [] 80).1
        < (([] : List JStr)).length + column_count (layout [] 80).1) := by
  decide

/-- C5 amended: the grid is rectangular and `rows * column_count ≥ entry_count`; and
`rows * column_count < entry_count + column_count` for a non-empty entry list when the
single-row grid is accepted (`column_count = entry_count`) or the entry count is not a
multiple of the column count. -/
theorem C5_grid_shape (c : List JStr) (W : Int) :
    (∀ row ∈ (layout c W).1, row.length = column_count (layout c W).1) ∧
    c.length ≤ (layout c W).1.length * column_count (layout c W).1 ∧
    (c ≠ [] →
      (column_count (layout c W).1 = c.length ∨ ¬ column_count (layout c W).1 ∣ c.length) →
      (layout c W).1.length * column_count (layout c W).1
        < c.length + column_count (layout c W).1) := by
  refine ⟨layout_rows_length c W, ?_, ?_⟩
  · rw [layout_cells]; omega
  · intro hc hcase
    have hn : 1 ≤ c.length := by
      cases c with
      | nil => exact absurd rfl hc
      | cons a l => simp
    have hcells := layout_cells c W
    rw [column_count_layout] at hcase hcells ⊢
    have hpos := final_size_pos c W hn
    by_cases heq : final_size c W = c.length
    · simp only [heq, if_true] at hcells
      rw [heq]
      omega
    · simp only [heq, if_false] at hcells
      have hpad := pad_count_le c (final_size c W)
      rcases Nat.lt_or_ge (pad_count c (final_size c W)) (final_size c W) with hlt | hge
      · omega
      · exfalso
        have hp : pad_count c (final_size c W) = final_size c W := le_antisymm hpad hge
        rw [hp] at hcells
        rcases hcase with h1 | h1
        · exact heq h1
        · apply h1
          refine ⟨(layout c W).1.length - 1, ?_⟩
          have hrows : 1 ≤ (layout c W).1.length := by
            rcases Nat.eq_zero_or_pos (layout c W).1.length with h0 | h0
            · rw [h0] at hcells; omega
            · exact h0
          obtain ⟨m, hm⟩ : ∃ m, (layout c W).1.length = m + 1 :=
            ⟨(layout c W).1.length - 1, by omega⟩
          rw [hm] at hcells ⊢
          rw [Nat.add_mul, Nat.one_mul] at hcells
          simp only [Nat.add_sub_cancel]
          rw [Nat.mul_comm]
          omega

/-- C5 amended at three one-letter entries and width 20: two rows of two cells, 4 < 5. -/
theorem C5_grid_shape_witness :
    three_entries ≠ [] ∧
      ¬ column_count (layout three_entries 20).1 ∣ three_entries.length ∧
      (layout three_entries 20).1.length * column_count (layout three_entries 20).1
        < three_entries.length + column_count (layout three_entries 20).1 :=
  ⟨by decide, by decide,
    (C5_grid_shape three_entries 20).2.2 (by decide) (Or.inr (by decide))⟩

/-- C6, claim as stated, fails at three one-letter entries and width 20: the grid has
`R = 2` rows and entry 1 is not at row `1 mod 2`, column `1 div 2`. -/
theorem C6_column_major_counterexample :
    (layout three_entries 20).1 = [[lit "a", lit "b"], [lit "c", lit ""]] ∧
    ¬ (((layout three_entries 20).1[1 % (layout three_entries 20).1.length]?).bind
        (fun row => row[1 / (layout three_entries 20).1.length]?)
      = three_entries[1]?) := by
  decide

/-- C6 amended: the grid is filled row by row: with `s` columns the `k`-th entry is at
row `k div s`, column `k mod s`. -/
theorem C6_row_major (names : List JStr) (W : Int) (k : Nat) (hk : k < names.length) :
    ((layout names W).1[k / column_count (layout names W).1]?).bind
        (fun row => row[k % column_count (layout names W).1]?)
      = names[k]? := by
  have hpos : 0 < column_count (layout names W).1 := by
    rw [column_count_layout]
    exact final_size_pos names W (by omega)
  rw [← getElem?_flatten_of_rows _ _ hpos (layout_rows_length names W), layout_flatten,
    List.getElem?_append_left hk]

/-- C6 amended at three one-letter entries and width 20: entry 1 is at row 0, column 1. -/
theorem C6_row_major_witness :
    1 < three_entries.length ∧
      ((layout three_entries 20).1[1 / column_count (layout three_entries 20).1]?).bind
          (fun row => row[1 % column_count (layout three_entries 20).1]?)
        = three_entries[1]? :=
  ⟨by decide, C6_row_major three_entries 20 1 (by decide)⟩

/-! ## The resolver and render claims -/

/-- C7: `options` returns one of the three counter names, and a render pass (`ls`) over
non-empty entry names completes and classifies each entry once: each counter is the number
of entries that `options` sends to it, and the three add up to the number of entries. -/
theorem C7_resolver_total_counter_sum (env : Env) (ic : Icons) (input : JStr)
    (c : List JStr) (report : Bool) (W : Int) (h : ∀ e ∈ c, e ≠ []) :
    (∀ content, (options env ic content).2.2
        ∈ ["folders", "recognized_files", "unrecognized_files"]) ∧
    ∃ r, ls env ic input c report W = .ok r ∧
      r.count.folders = c.countP (fun e => (options env ic e).2.2 == "folders") ∧
      r.count.recognized_files
        = c.countP (fun e => (options env ic e).2.2 == "recognized_files") ∧
      r.count.unrecognized_files
        = c.countP (fun e => (options env ic e).2.2 == "unrecognized_files") ∧
      r.count.folders + r.count.recognized_files + r.count.unrecognized_files = c.length := by
  constructor
  · intro content
    rcases options_counter env ic content with hc | hc | hc <;> simp [hc]
  · obtain ⟨r1, hr1, hc1⟩ := ls_lines_ok env ic (layout c W).2 (layout c W).1
      { count := initial_count, out := [] } (layout_widths_ge c W)
    rw [layout_processed c W h] at hc1
    obtain ⟨h1, h2, h3, h4⟩ := classify_all_counts env ic c initial_count
    simp only [initial_count, Nat.zero_add] at h1 h2 h3 h4
    simp only [initial_count] at hc1
    refine ⟨if report then
        display_report env input (layout c W).1 { r1 with out := r1.out ++ [lit "\n"] }
      else { r1 with out := r1.out ++ [lit "\n"] }, ?_, ?_⟩
    · simp only [ls, hr1]
    · cases report <;> simp only [display_report, if_true, if_false, Bool.false_eq_true] <;>
        rw [hc1] <;> exact ⟨h1, h2, h3, h4⟩

/-- C7 on the scenario of the specification at width 20: one folder, one recognized file
and two unrecognized files, four entries. -/
theorem C7_resolver_total_counter_sum_witness :
    ∃ r, ls example_env example_icons (lit ".") scenario_entries true 20 = .ok r ∧
      r.count.folders = 1 ∧ r.count.recognized_files = 1 ∧ r.count.unrecognized_files = 2 ∧
      r.count.folders + r.count.recognized_files + r.count.unrecognized_files
        = scenario_entries.length := by
  obtain ⟨r, hr, h1, h2, h3, h4⟩ :=
    (C7_resolver_total_counter_sum example_env example_icons (lit ".") scenario_entries true 20
      (by decide)).2
  exact ⟨r, hr, h1.trans (by decide), h2.trans (by decide), h3.trans (by decide), h4⟩

/-- C8, claim as stated, fails when the alias key is also a primary key: `markdown` is an
alias of the primary key `md`, yet `a.markdown` gets the display key `markdown` and `b.md`
the display key `md`. -/
theorem C8_alias_transparency_counterexample :
    clash_icons.file_aliases.get (lit "markdown") = some (lit "md") ∧
    lit "md" ∈ clash_icons.file_keys ∧
    example_env.isDirectory (lit "a.markdown") = false ∧
    example_env.isDirectory (lit "b.md") = false ∧
    file_key example_env (lit "a.markdown") = lit "markdown" ∧
    file_key example_env (lit "b.md") = lit "md" ∧
    (options example_env clash_icons (lit "a.markdown")).1 = some (lit "markdown") ∧
    (options example_env clash_icons (lit "b.md")).1 = some (lit "md") ∧
    (options example_env clash_icons (lit "a.markdown")).1
      ≠ (options example_env clash_icons (lit "b.md")).1 := by
  decide

/-- C8 amended: if the alias table maps `x` to `y`, `y` is a key of the primary table and
`x` is not, then an entry with lookup key `x` gets the same display key and the same color
as an entry with lookup key `y`: for files through `file_aliases` and `files`, for
directories through `folder_aliases` and `folders`. -/
theorem C8_alias_transparency (env : Env) (ic : Icons) (x y : JStr) :
    (∀ cx cy, env.isDirectory cx = false → env.isDirectory cy = false →
      file_key env cx = x → file_key env cy = y →
      ic.file_aliases.get x = some y → y ∈ ic.file_keys → x ∉ ic.file_keys →
      (options env ic cx).1 = (options env ic cy).1 ∧
      (options env ic cx).2.1 = (options env ic cy).2.1) ∧
    (env.isDirectory x = true → env.isDirectory y = true →
      ic.folder_aliases.get x = some y → y ∈ ic.folder_keys → x ∉ ic.folder_keys →
      (options env ic x).1 = (options env ic y).1 ∧
      (options env ic x).2.1 = (options env ic y).2.1) := by
  constructor
  · intro cx cy hdx hdy hx hy hal hy1 hx1
    have hx2 : x ∈ ic.file_alias_keys := mem_keys_of_get _ _ _ hal
    rw [options_file env ic cx hdx, options_file env ic cy hdy, hx, hy]
    simp [hx1, hx2, hy1, hal]
  · intro hdx hdy hal hy1 hx1
    have hx2 : x ∈ ic.folder_alias_keys := mem_keys_of_get _ _ _ hal
    rw [options_directory env ic x hdx, options_directory env ic y hdy]
    simp [hx1, hx2, hy1, hal]

/-- C8 amended on the example tables: `a.markdown` and `b.md` get the same display key and
color, and so do the directories `source` and `src`. -/
theorem C8_alias_transparency_witness :
    ((options example_env example_icons (lit "a.markdown")).1
        = (options example_env example_icons (lit "b.md")).1 ∧
      (options example_env example_icons (lit "a.markdown")).2.1
        = (options example_env example_icons (lit "b.md")).2.1) ∧
    ((options { example_env with isDirectory := fun _ => true } example_icons (lit "source")).1
        = (options { example_env with isDirectory := fun _ => true } example_icons
            (lit "src")).1 ∧
      (options { example_env with isDirectory := fun _ => true } example_icons
          (lit "source")).2.1
        = (options { example_env with isDirectory := fun _ => true } example_icons
            (lit "src")).2.1) :=
  ⟨(C8_alias_transparency example_env example_icons (lit "markdown") (lit "md")).1
      (lit "a.markdown") (lit "b.md") (by decide) (by decide) (by decide) (by decide)
      (by decide) (by decide) (by decide),
    (C8_alias_transparency { example_env with isDirectory := fun _ => true } example_icons
      (lit "source") (lit "src")).2 (by decide) (by decide) (by decide) (by decide)
      (by decide)⟩

/-- C9: for an entry that is not a directory, the lookup key of `options` is the
lowercased text after the last `.` (the lowercased name when it has no `.`, the lowercased
empty string when it ends in `.`); `options` returns `file`, yellow, `unrecognized_files`
when the key is in neither key list, the key, green, `recognized_files` when it is a
primary file key, and `file_aliases[key]`, green, `recognized_files` otherwise. -/
theorem C9_file_classification (env : Env) (ic : Icons) (content : JStr)
    (hd : env.isDirectory content = false) :
    (46 ∉ content ∨ ∃ pre suf, content = pre ++ 46 :: suf ∧ 46 ∉ suf) ∧
    (46 ∉ content → file_key env content = env.toLowerCase content) ∧
    (∀ pre suf, content = pre ++ 46 :: suf → 46 ∉ suf →
      file_key env content = env.toLowerCase suf) ∧
    (∀ pre, content = pre ++ [46] → file_key env content = env.toLowerCase []) ∧
    (env.toLowerCase [] = [] → ∀ pre, content = pre ++ [46] → file_key env content = []) ∧
    (file_key env content ∉ ic.file_keys → file_key env content ∉ ic.file_alias_keys →
      options env ic content = (some (lit "file"), "yellow", "unrecognized_files")) ∧
    (file_key env content ∈ ic.file_keys →
      options env ic content = (some (file_key env content), "green", "recognized_files")) ∧
    (file_key env content ∉ ic.file_keys → file_key env content ∈ ic.file_alias_keys →
      ∃ v, ic.file_aliases.get (file_key env content) = some v ∧
        options env ic content = (some v, "green", "recognized_files")) := by
  refine ⟨exists_last_sep 46 content, file_key_of_not_mem env content, ?_, ?_, ?_, ?_, ?_, ?_⟩
  · intro pre suf e hs
    rw [e]
    exact file_key_append env pre suf hs
  · intro pre e
    rw [e]
    exact file_key_append env pre [] (by simp)
  · intro hlow pre e
    rw [e, file_key_append env pre [] (by simp), hlow]
  · intro h1 h2
    rw [options_file env ic content hd]
    simp [h1, h2]
  · intro h1
    rw [options_file env ic content hd]
    simp [h1]
  · intro h1 h2
    obtain ⟨v, hv⟩ := get_isSome_of_mem_keys _ _ h2
    refine ⟨v, hv, ?_⟩
    rw [options_file env ic content hd]
    simp [h1, h2, hv]

/-- C9 on the example tables: `README.MD` has the key `md`, a primary file key. -/
theorem C9_file_classification_witness :
    example_env.isDirectory (lit "README.MD") = false ∧
      file_key example_env (lit "README.MD") = lit "md" ∧
      options example_env example_icons (lit "README.MD")
        = (some (lit "md"), "green", "recognized_files") :=
  ⟨by decide, by decide,
    ((C9_file_classification example_env example_icons (lit "README.MD")
      (by decide)).2.2.2.2.2.2.1 (by decide)).trans (by decide)⟩

/-- C10: for a directory the lookup key of `options` is the entry name itself; `options`
returns `folder`, blue, `folders` when the name is in neither key list, the name, blue,
`folders` when it is a primary folder key, and `folder_aliases[name]`, blue, `folders`
otherwise; the counter is `folders` in every case. -/
theorem C10_directory_classification (env : Env) (ic : Icons) (content : JStr)
    (hd : env.isDirectory content = true) :
    (content ∉ ic.folder_keys → content ∉ ic.folder_alias_keys →
      options env ic content = (some (lit "folder"), "blue", "folders")) ∧
    (content ∈ ic.folder_keys →
      options env ic content = (some content, "blue", "folders")) ∧
    (content ∉ ic.folder_keys → content ∈ ic.folder_alias_keys →
      ∃ v, ic.folder_aliases.get content = some v ∧
        options env ic content = (some v, "blue", "folders")) ∧
    (options env ic content).2.2 = "folders" := by
  refine ⟨?_, ?_, ?_, ?_⟩
  · intro h1 h2
    rw [options_directory env ic content hd]
    simp [h1, h2]
  · intro h1
    rw [options_directory env ic content hd]
    simp [h1]
  · intro h1 h2
    obtain ⟨v, hv⟩ := get_isSome_of_mem_keys _ _ h2
    refine ⟨v, hv, ?_⟩
    rw [options_directory env ic content hd]
    simp [h1, h2, hv]
  · rw [options_directory env ic content hd]
    split
    · rfl
    · split <;> rfl

/-- C10 on the example tables: the directory `src` is a primary folder key. -/
theorem C10_directory_classification_witness :
    example_env.isDirectory (lit "src") = true ∧
      options example_env example_icons (lit "src") = (some (lit "src"), "blue", "folders") :=
  ⟨by decide,
    (C10_directory_classification example_env example_icons (lit "src") (by decide)).2.1
      (by decide)⟩


/-! ## Further lemmas -/

theorem get_none_of_not_mem_keys (t : Table) (k : JStr) (h : k ∉ t.keys) : t.get k = none := by
  cases hg : t.get k with
  | none => rfl
  | some v => exact absurd (mem_keys_of_get t k v hg) h

theorem read_of_not_mem_keys (env : Env) (t : Table) (v : JStr) (h : v ∉ t.keys) :
    t.read env (some v) = to_text (env.inherited v) := by
  simp [Table.read, to_text, get_none_of_not_mem_keys t v h]

theorem foldl_append_eq_flatten (g : Grid) (acc : List JStr) :
    g.foldl (fun a b => a ++ b) acc = acc ++ g.flatten := by
  induction g generalizing acc with
  | nil => simp
  | cons row rows ih => simp [ih]

theorem get_chunk_loop_one (xs : List JStr) (chunk : Grid) :
    get_chunk_loop 1 xs chunk [] = (chunk ++ xs.map (fun e => [e]), []) := by
  induction xs generalizing chunk with
  | nil => simp [get_chunk_loop]
  | cons x rest ih => simp [get_chunk_loop, ih]

/-- With `chunk_size` 1 every entry is a row, and one row of padding follows. -/
theorem get_chunk_rows_one (xs : List JStr) :
    get_chunk_rows xs 1 = xs.map (fun e => [e]) ++ [[[]]] := by
  simp [get_chunk_rows, get_chunk_loop_one]

theorem foldl_max_mem (xs : List Nat) (a : Nat) :
    xs.foldl max a = a ∨ xs.foldl max a ∈ xs := by
  induction xs generalizing a with
  | nil => simp
  | cons x rest ih =>
    simp only [List.foldl_cons, List.mem_cons]
    rcases ih (max a x) with h | h
    · rcases max_choice a x with h1 | h1
      · left; rw [h, h1]
      · right; left; rw [h, h1]
    · right; right; exact h

theorem math_max_mem (xs : List Nat) (h : xs ≠ []) : math_max xs ∈ xs := by
  rcases foldl_max_mem xs 0 with h0 | h0
  · cases xs with
    | nil => exact absurd rfl h
    | cons x rest =>
      have hx : x ≤ math_max (x :: rest) := le_math_max _ x (by simp)
      have h1 : math_max (x :: rest) = 0 := h0
      have hx0 : x = 0 := by omega
      rw [h1, hx0]
      simp
  · exact h0

theorem layout_widths_length (c : List JStr) (W : Int) :
    (layout c W).2.length = column_count (layout c W).1 := by
  rw [column_count_layout, layout_eq]
  by_cases heq : final_size c W = c.length
  · simp [widths_at, heq, initial_max_widths]
  · have hlt : final_size c W < c.length := lt_of_le_of_ne (final_size_le c W) heq
    simp only [widths_at, heq, if_false]
    exact get_chunk_widths_length c _ (final_size_pos c W (by omega))

/-- Each surviving width is the length of a cell of its column, and no cell of the column
is longer. -/
theorem layout_widths_max (c : List JStr) (W : Int) (hc : c ≠ []) (i : Nat)
    (hi : i < column_count (layout c W).1) :
    ∃ w, (layout c W).2[i]? = some w ∧
      (∀ row ∈ (layout c W).1, (row.getD i []).length ≤ w) ∧
      (∃ row ∈ (layout c W).1, (row.getD i []).length = w) := by
  have hn : 1 ≤ c.length := by
    cases c with
    | nil => exact absurd rfl hc
    | cons a l => simp
  rw [column_count_layout] at hi
  rw [layout_eq]
  by_cases heq : final_size c W = c.length
  · simp only [heq, if_true, List.mem_singleton, forall_eq, exists_eq_left]
    rw [heq] at hi
    refine ⟨(c.getD i []).length, ?_, le_refl _, rfl⟩
    simp [widths_at, initial_max_widths, List.getD_eq_getElem?_getD, hi]
  · have hlt : final_size c W < c.length := lt_of_le_of_ne (final_size_le c W) heq
    have hpos : 0 < final_size c W := final_size_pos c W (by omega)
    simp only [heq, if_false, widths_at]
    have hcc := column_count_get_chunk_rows c _ hpos
    unfold column_count at hcc
    have hw : (get_chunk c (final_size c W)).2[i]?
        = some (math_max ((get_chunk_rows c (final_size c W)).map
            (fun r => (r.getD i []).length))) := by
      simp only [get_chunk, transposed, hcc, List.map_map, List.getElem?_map,
        List.getElem?_range hi, Option.map_some', Function.comp_def]
    refine ⟨_, hw, ?_, ?_⟩
    · intro row hrow
      exact le_math_max _ _ (List.mem_map.2 ⟨row, hrow, rfl⟩)
    · have hmem := math_max_mem ((get_chunk_rows c (final_size c W)).map
          (fun r => (r.getD i []).length))
        (by simpa using get_chunk_rows_ne_nil c (final_size c W))
      obtain ⟨row, hrow, hlen⟩ := List.mem_map.1 hmem
      exact ⟨row, hrow, hlen⟩

/-- The number that `display_report` prints counts the padding cells with the entries. -/
theorem reported_total (c : List JStr) (W : Int) :
    ((layout c W).1.foldl (fun a b => a ++ b) []).length
      = c.length + (if final_size c W = c.length then 0 else pad_count c (final_size c W)) := by
  rw [foldl_append_eq_flatten, List.nil_append, layout_flatten]
  simp

theorem mem_layout_cell (c : List JStr) (W : Int) (row : List JStr)
    (hrow : row ∈ (layout c W).1) (e : JStr) (he : e ∈ row) : e ∈ c ∨ e = [] := by
  have hmem : e ∈ (layout c W).1.flatten := List.mem_flatten.2 ⟨row, hrow, he⟩
  rw [layout_flatten] at hmem
  rcases List.mem_append.1 hmem with h | h
  · exact Or.inl h
  · exact Or.inr (List.eq_of_mem_replicate h)

/-! ## The claims on lookup errors, the report, the script and the fallback -/

/-- C11, claim as stated, fails: with `markdown` an alias of `md` and `md` not a primary
key, `options` and `fetch_string` on `x.markdown` return a string and the render pass
completes, with the text `undefined` in place of the icon. -/
theorem C11_dangling_alias_counterexample :
    dangling_icons.file_aliases.get (lit "markdown") = some (lit "md") ∧
    lit "md" ∉ dangling_icons.file_keys ∧
    lit "markdown" ∉ dangling_icons.file_keys ∧
    example_env.isDirectory (lit "x.markdown") = false ∧
    file_key example_env (lit "x.markdown") = lit "markdown" ∧
    options example_env dangling_icons (lit "x.markdown")
      = (some (lit "md"), "green", "recognized_files") ∧
    fetch_string example_env dangling_icons initial_count (lit "x.markdown")
        (some (lit "md")) "green" "recognized_files"
      = ({ folders := 0, recognized_files := 1, unrecognized_files := 0 },
          lit "undefined  x.markdown") ∧
    (ls example_env dangling_icons (lit ".") [lit "x.markdown"] false 80).toOption
      = some { count := { folders := 0, recognized_files := 1, unrecognized_files := 0 },
               out := [lit "\n", lit "undefined  x.markdown", lit "  ", lit " ", lit "\n"] } := by
  decide

/-- C11 amended: when the lookup key of an entry is only an alias and the alias table maps
it to a value `v` that is not a key of the primary table, `options` followed by
`fetch_string` does not fail: `options` returns `v` as display key, and `fetch_string`
increments the counter and returns `chalk[color](text + '  ' + name)`, where `text` is what
the missing property reads as: `undefined`, or the property that `Object.prototype` has
under the name `v`. -/
theorem C11_dangling_alias_prints (env : Env) (ic : Icons) (count : Count)
    (content v : JStr) :
    (env.isDirectory content = false → file_key env content ∉ ic.file_keys →
      ic.file_aliases.get (file_key env content) = some v → v ∉ ic.file_keys →
      options env ic content = (some v, "green", "recognized_files") ∧
      fetch_string env ic count content (options env ic content).1
          (options env ic content).2.1 (options env ic content).2.2
        = (count.incr "recognized_files",
            env.chalk "green" (to_text (env.inherited v) ++ lit "  " ++ content))) ∧
    (env.isDirectory content = true → content ∉ ic.folder_keys →
      ic.folder_aliases.get content = some v → v ∉ ic.folder_keys →
      options env ic content = (some v, "blue", "folders") ∧
      fetch_string env ic count content (options env ic content).1
          (options env ic content).2.1 (options env ic content).2.2
        = (count.incr "folders",
            env.chalk "blue" (to_text (env.inherited v) ++ lit "  " ++ content))) := by
  constructor
  · intro hd h1 hal hv
    have h2 : file_key env content ∈ ic.file_alias_keys := mem_keys_of_get _ _ _ hal
    have hopt : options env ic content = (some v, "green", "recognized_files") := by
      rw [options_file env ic content hd]
      simp [h1, h2, hal]
    refine ⟨hopt, ?_⟩
    rw [hopt]
    simp [fetch_string, fetch_value, read_of_not_mem_keys env ic.files v hv]
  · intro hd h1 hal hv
    have h2 : content ∈ ic.folder_alias_keys := mem_keys_of_get _ _ _ hal
    have hopt : options env ic content = (some v, "blue", "folders") := by
      rw [options_directory env ic content hd]
      simp [h1, h2, hal]
    refine ⟨hopt, ?_⟩
    rw [hopt]
    simp [fetch_string, fetch_value, read_of_not_mem_keys env ic.folders v hv]

/-- C11 amended on the tables with dangling aliases: the file `x.markdown` and the
directory `source` both get the text `undefined`. -/
theorem C11_dangling_alias_prints_witness :
    (fetch_string example_env dangling_icons initial_count (lit "x.markdown")
        (options example_env dangling_icons (lit "x.markdown")).1
        (options example_env dangling_icons (lit "x.markdown")).2.1
        (options example_env dangling_icons (lit "x.markdown")).2.2).2
      = lit "undefined  x.markdown" ∧
    (fetch_string { example_env with isDirectory := fun _ => true } dangling_icons
        initial_count (lit "source")
        (options { example_env with isDirectory := fun _ => true } dangling_icons
          (lit "source")).1
        (options { example_env with isDirectory := fun _ => true } dangling_icons
          (lit "source")).2.1
        (options { example_env with isDirectory := fun _ => true } dangling_icons
          (lit "source")).2.2).2
      = lit "undefined  source" :=
  ⟨(congrArg Prod.snd
      (((C11_dangling_alias_prints example_env dangling_icons initial_count
        (lit "x.markdown") (lit "md")).1 (by decide) (by decide) (by decide)
        (by decide)).2)).trans (by decide),
    (congrArg Prod.snd
      (((C11_dangling_alias_prints { example_env with isDirectory := fun _ => true }
        dangling_icons initial_count (lit "source") (lit "src")).2 (by decide) (by decide)
        (by decide) (by decide)).2)).trans (by decide)⟩

/-- C12, evaluated on three one-letter entries at width 20 with the report: the grid has
one padding cell, the report prints `Found 4 contents` and the three counters add up to
3, the number of entries. -/
theorem C12_reported_total_counts_padding :
    (layout three_entries 20).1 = [[lit "a", lit "b"], [lit "c", lit ""]] ∧
    (ls example_env example_icons (lit ".") three_entries true 20).toOption.map
        (fun r => (r.count, r.out[12]?))
      = some ({ folders := 0, recognized_files := 0, unrecognized_files := 3 },
          some (lit "\n Found 4 contents in directory ")) ∧
    three_entries.length = 3 := by
  decide

/-- C13, claim as stated, fails at width 80: the grid of the empty entry list has one row
and the render pass writes two newlines. -/
theorem C13_empty_directory_counterexample :
    (layout [] 80).1.length = 1 ∧
    (ls example_env example_icons (lit ".") [] false 80).toOption.map (fun r => r.out)
      = some [lit "\n", lit "\n"] ∧
    (ls example_env example_icons (lit ".") [] false 80).toOption.map (fun r => r.out)
      ≠ some [lit "\n"] := by
  decide

/-- C13 amended: for the empty entry list and every terminal width, `chunkify` returns a
grid of one row that has no cell, the render pass writes two newlines (one for that row, one
at the end), and the report shows the three counters at 0 and a total of 0. -/
theorem C13_empty_directory (env : Env) (ic : Icons) (input : JStr) (W : Int) :
    (layout [] W).1 = [[]] ∧
    ls env ic input [] false W
      = .ok { count := { folders := 0, recognized_files := 0, unrecognized_files := 0 },
              out := [lit "\n", lit "\n"] } ∧
    ls env ic input [] true W
      = .ok { count := { folders := 0, recognized_files := 0, unrecognized_files := 0 },
              out := [lit "\n", lit "\n",
                env.chalk "white" (lit "\n Found " ++ num 0 ++ lit " contents in directory "),
                env.chalk "blue" input,
                env.chalk "white" (lit "\n\n\tFolders\t\t\t: " ++ num 0),
                env.chalk "white" (lit "\n\tRecognized files\t: " ++ num 0),
                env.chalk "white" (lit "\n\tUnrecognized files\t: " ++ num 0),
                lit "\n\n"] } := by
  refine ⟨rfl, rfl, rfl⟩

/-- Without any argument that starts with `-`, the script lists its arguments in order. -/
theorem main_inputs_of_no_flag (args : List JStr) (hne : args ≠ [])
    (h : ∀ a ∈ args, starts_with_dash a = false) : main_inputs args = args.map some := by
  have hf : filtered args = args := by
    unfold filtered
    exact List.filter_eq_self.2 (fun a ha => by simp [h a ha])
  have hlen : ¬ args.length = 0 := fun h0 => hne (List.length_eq_zero.1 h0)
  simp [main_inputs, hf, hlen]

/-- With no argument other than flags, the script lists the current directory. -/
theorem main_inputs_of_flags_only (args : List JStr)
    (h : ∀ a ∈ args, starts_with_dash a = true) : main_inputs args = [none] := by
  have hf : filtered args = [] := by
    unfold filtered
    exact List.filter_eq_nil_iff.2 (fun a ha => by simp [h a ha])
  simp [main_inputs, hf]

/-- C14, evaluated on the arguments `--report src`: the script takes the directories from
`args`, not from `filtered`, so it lists `--report` as a directory before `src`. -/
theorem C14_flag_listed_as_directory :
    main_report [lit "--report", lit "src"] = true ∧
    filtered [lit "--report", lit "src"] = [lit "src"] ∧
    main_directories (lit "/cwd") [lit "--report", lit "src"] = [lit "--report", lit "src"] ∧
    main_directories (lit "/cwd") [lit "--report", lit "src"]
      ≠ filtered [lit "--report", lit "src"] := by
  decide

/-- C15, claim as stated, fails on two one-letter entries at width 0: no candidate size
passes the fit test and the grid is not the single row of the two entries. -/
theorem C15_fallback_counterexample :
    2 ≤ two_entries.length ∧
    fits two_entries 0 1 = false ∧ fits two_entries 0 2 = false ∧
    (layout two_entries 0).1 = [[lit "a"], [lit "b"], [lit ""]] ∧
    (layout two_entries 0).1 ≠ [two_entries] := by
  decide

/-- C15 amended: for at least two entries, at a width where no candidate size passes the
fit test, the grid returned by `chunkify` has one column and its `k`-th row, for `k` below
the entry count, is the `k`-th entry alone. -/
theorem C15_fallback_one_column (names : List JStr) (W : Int) (hn : 2 ≤ names.length)
    (hfit : ∀ t, 1 ≤ t → t ≤ names.length → fits names W t = false) :
    column_count (layout names W).1 = 1 ∧
    (∀ row ∈ (layout names W).1, row.length = 1) ∧
    (∀ k, k < names.length → (layout names W).1[k]? = (names[k]?).map (fun e => [e])) := by
  have hpos := final_size_pos names W (by omega)
  have hle := final_size_le names W
  have h1 : final_size names W = 1 := by
    rcases fits_final_size names W with h | h
    · rw [hfit _ hpos hle] at h
      exact absurd h (by simp)
    · omega
  have hcc : column_count (layout names W).1 = 1 := by rw [column_count_layout, h1]
  refine ⟨hcc, ?_, ?_⟩
  · intro row hrow
    rw [layout_rows_length names W row hrow, hcc]
  · intro k hk
    have hne : ¬ 1 = names.length := by omega
    rw [layout_eq]
    simp only [h1, hne, if_false, get_chunk_rows_one]
    rw [List.getElem?_append_left (by simpa using hk)]
    simp

/-- C15 amended on two one-letter entries at width 0: row 1 is the entry `b` alone. -/
theorem C15_fallback_one_column_witness :
    2 ≤ two_entries.length ∧ column_count (layout two_entries 0).1 = 1 ∧
      (layout two_entries 0).1[1]? = some [lit "b"] :=
  ⟨by decide,
    (C15_fallback_one_column two_entries 0 (by decide)
      (fun t h1 h2 => by
        have h3 : t ≤ 2 := h2
        interval_cases t <;> rfl)).1,
    ((C15_fallback_one_column two_entries 0 (by decide)
      (fun t h1 h2 => by
        have h3 : t ≤ 2 := h2
        interval_cases t <;> rfl)).2.2 1 (by decide)).trans (by decide)⟩

/-! ## The claims on counters, widths and padding -/

/-- C16: the `fetch_string` call made with a result of `options` adds one to the counter
that the result names and leaves the other two counters as they were. -/
theorem C16_counter_effect (env : Env) (ic : Icons) (count : Count) (content : JStr) :
    ((options env ic content).2.2 = "folders" ∧
      (fetch_string env ic count content (options env ic content).1
        (options env ic content).2.1 (options env ic content).2.2).1
        = { folders := count.folders + 1, recognized_files := count.recognized_files,
            unrecognized_files := count.unrecognized_files }) ∨
    ((options env ic content).2.2 = "recognized_files" ∧
      (fetch_string env ic count content (options env ic content).1
        (options env ic content).2.1 (options env ic content).2.2).1
        = { folders := count.folders, recognized_files := count.recognized_files + 1,
            unrecognized_files := count.unrecognized_files }) ∨
    ((options env ic content).2.2 = "unrecognized_files" ∧
      (fetch_string env ic count content (options env ic content).1
        (options env ic content).2.1 (options env ic content).2.2).1
        = { folders := count.folders, recognized_files := count.recognized_files,
            unrecognized_files := count.unrecognized_files + 1 }) := by
  rcases options_counter env ic content with hc | hc | hc
  · exact Or.inl ⟨hc, by simp [fetch_string, hc, Count.incr]⟩
  · exact Or.inr (Or.inl ⟨hc, by simp [fetch_string, hc, Count.incr]⟩)
  · exact Or.inr (Or.inr ⟨hc, by simp [fetch_string, hc, Count.incr]⟩)

/-- C17: for a non-empty entry list, after `chunkify` the list `max_widths` has one element
for each column, and the element of column `i` is the greatest length of a cell at
position `i` over the rows of the grid: no cell of the column is longer and one cell has
that length. -/
theorem C17_column_widths (names : List JStr) (W : Int) (hne : names ≠ []) :
    (layout names W).2.length = column_count (layout names W).1 ∧
    ∀ i, i < column_count (layout names W).1 →
      ∃ w, (layout names W).2[i]? = some w ∧
        (∀ row ∈ (layout names W).1, (row.getD i []).length ≤ w) ∧
        (∃ row ∈ (layout names W).1, (row.getD i []).length = w) :=
  ⟨layout_widths_length names W, fun i hi => layout_widths_max names W hne i hi⟩

/-- C17 on the scenario of the specification at width 40: two columns, of widths 7 and 9,
the lengths of `main.rs` and `README.md`. -/
theorem C17_column_widths_witness :
    scenario_entries ≠ [] ∧
      (layout scenario_entries 40).1
        = [[lit "src", lit "README.md"], [lit "main.rs", lit "Makefile"], [lit "", lit ""]] ∧
      (layout scenario_entries 40).2 = [7, 9] ∧
      (layout scenario_entries 40).2.length = column_count (layout scenario_entries 40).1 :=
  ⟨by decide, by decide, by decide, (C17_column_widths scenario_entries 40 (by decide)).1⟩

/-- C18, claim as stated, fails on three one-letter entries at width 20: the cell `a` of
column 0, of width 1, is followed by one space, not by `1 - 1 + 2` spaces. -/
theorem C18_cell_padding_counterexample :
    (layout three_entries 20).1 = [[lit "a", lit "b"], [lit "c", lit ""]] ∧
    (layout three_entries 20).2 = [1, 1] ∧
    (space (layout three_entries 20).2 0 (lit "a")).toOption = some (lit " ") ∧
    (ls example_env example_icons (lit ".") three_entries false 20).toOption.map
        (fun r => r.out.take 4)
      = some [lit "\n", lit "?  a", lit "  ", lit " "] ∧
    (lit " ").length ≠ 1 - (lit "a").length + 2 := by
  decide

/-- C18 amended: for a cell `c` in column `i` of the accepted grid, `max_widths[i]` is at
least the length of `c` and the run of spaces of `ls_line` has length
`max_widths[i] - length(c) + 1`; for a non-empty cell `ls_line` writes the string of
`fetch_string`, the two-character marker and that run, and goes on to the next cell. -/
theorem C18_cell_padding (env : Env) (ic : Icons) (names : List JStr) (W : Int)
    (row : List JStr) (hrow : row ∈ (layout names W).1) (i : Nat) (hi : i < row.length) :
    ∃ w, (layout names W).2[i]? = some w ∧ (row.getD i []).length ≤ w ∧
      space (layout names W).2 i (row.getD i [])
        = .ok (List.replicate (w - (row.getD i []).length + 1) 32) ∧
      (List.replicate (w - (row.getD i []).length + 1) 32).length
        = w - (row.getD i []).length + 1 ∧
      ∀ (rest : List JStr) (r : Render), row.getD i [] ≠ [] →
        ls_line_loop env ic (layout names W).2 i (row.getD i [] :: rest) r
          = ls_line_loop env ic (layout names W).2 (i + 1) rest
              { count := (fetch_string env ic r.count (row.getD i [])
                  (options env ic (row.getD i [])).1 (options env ic (row.getD i [])).2.1
                  (options env ic (row.getD i [])).2.2).1,
                out := r.out ++
                  [(fetch_string env ic r.count (row.getD i [])
                      (options env ic (row.getD i [])).1 (options env ic (row.getD i [])).2.1
                      (options env ic (row.getD i [])).2.2).2,
                    if env.isDirectory (row.getD i []) then env.chalk "blue" (lit "/ ")
                    else lit "  ",
                    List.replicate (w - (row.getD i []).length + 1) 32] } := by
  obtain ⟨w, hw, hle⟩ := layout_widths_ge names W row hrow i hi
  refine ⟨w, hw, hle, space_ok _ i _ w hw hle, by simp, ?_⟩
  intro rest r hne
  have hlen : ¬ (row.getD i []).length = 0 := by
    intro h0
    exact hne (List.length_eq_zero.1 h0)
  simp only [ls_line_loop, hlen, if_false, space_ok _ i _ w hw hle]

/-- C18 amended on three one-letter entries at width 20: one space follows the cell `a`. -/
theorem C18_cell_padding_witness :
    [lit "a", lit "b"] ∈ (layout three_entries 20).1 ∧
      ∃ w, (layout three_entries 20).2[0]? = some w ∧
        space (layout three_entries 20).2 0 (lit "a")
          = .ok (List.replicate (w - (lit "a").length + 1) 32) := by
  refine ⟨by decide, ?_⟩
  obtain ⟨w, h1, _, h3, _⟩ := C18_cell_padding example_env example_icons three_entries 20
    [lit "a", lit "b"] (by decide) 0 (by decide)
  exact ⟨w, h1, h3⟩

/-- C19: for every cell at position `i` of every row of the grid returned by `chunkify`,
`max_widths[i]` is defined and at least the length of the cell, the array length
`max_widths[i] - length + 2` is positive and the padding is built without error; the render
pass completes without the invalid-array-length error. -/
theorem C19_padding_never_fails (env : Env) (ic : Icons) (input : JStr)
    (names : List JStr) (report : Bool) (W : Int) :
    (∀ row ∈ (layout names W).1, ∀ i, i < row.length →
      ∃ w, (layout names W).2[i]? = some w ∧ (row.getD i []).length ≤ w ∧
        (0 : Int) < (w : Int) - ((row.getD i []).length : Int) + 2 ∧
        ∃ sp, space (layout names W).2 i (row.getD i []) = .ok sp) ∧
    ∃ r, ls env ic input names report W = .ok r := by
  constructor
  · intro row hrow i hi
    obtain ⟨w, hw, hle⟩ := layout_widths_ge names W row hrow i hi
    exact ⟨w, hw, hle, by omega, _, space_ok _ i _ w hw hle⟩
  · obtain ⟨r1, hr1, _⟩ := ls_lines_ok env ic (layout names W).2 (layout names W).1
      { count := initial_count, out := [] } (layout_widths_ge names W)
    refine ⟨if report then
        display_report env input (layout names W).1 { r1 with out := r1.out ++ [lit "\n"] }
      else { r1 with out := r1.out ++ [lit "\n"] }, ?_⟩
    simp only [ls, hr1]

/-- C19 on the scenario of the specification at width 40: the cell `src` of column 0, of
width 7, gets its padding, and the render pass with the report completes. -/
theorem C19_padding_never_fails_witness :
    [lit "src", lit "README.md"] ∈ (layout scenario_entries 40).1 ∧
      (∃ sp, space (layout scenario_entries 40).2 0 (lit "src") = .ok sp) ∧
      ∃ r, ls example_env example_icons (lit ".") scenario_entries true 40 = .ok r := by
  have h := C19_padding_never_fails example_env example_icons (lit ".") scenario_entries
    true 40
  obtain ⟨w, _, _, _, hsp⟩ := h.1 [lit "src", lit "README.md"] (by decide) 0 (by decide)
  exact ⟨by decide, hsp, h.2⟩

/-! ## The rendered width -/

theorem drop_of_getElem? (l : List Nat) (i w : Nat) (h : l[i]? = some w) :
    l.drop i = w :: l.drop (i + 1) := by
  induction l generalizing i with
  | nil => simp at h
  | cons a rest ih =>
    cases i with
    | zero => simp at h; simp [h]
    | succ k =>
      simp only [List.getElem?_cons_succ] at h
      simpa using ih k h

theorem sum_take_le (l : List Nat) (p : Nat) : (l.take p).sum ≤ l.sum := by
  have h : ((l.take p) ++ (l.drop p)).sum = l.sum := by rw [List.take_append_drop]
  rw [List.sum_append] at h
  omega

theorem length_takeWhile_le_length {α : Type} (p : α → Bool) (l : List α) :
    (l.takeWhile p).length ≤ l.length := by
  induction l with
  | nil => simp
  | cons a rest ih =>
    simp only [List.takeWhile]
    split
    · simpa using ih
    · simp

theorem length_lit_marker : (lit "/ ").length = 2 ∧ (lit "  ").length = 2 := by decide

/-- The strings that the loop of `ls_line` writes for a row: `max_widths[i] + 6` code
units for each cell before the first empty one, when `chalk` adds nothing visible and the
icons have length 1. -/
theorem ls_line_loop_width (env : Env) (ic : Icons) (mw : List Nat)
    (hchalk : ∀ color text, (env.chalk color text).length = text.length)
    (row : List JStr) :
    ∀ (i : Nat) (r : Render),
      (∀ j, j < row.length → ∃ w, mw[i + j]? = some w ∧ (row.getD j []).length ≤ w) →
      (∀ e ∈ row, e ≠ [] →
        (fetch_value env ic (options env ic e).1 (options env ic e).2.2).length = 1) →
      ∃ r1 written, ls_line_loop env ic mw i row r = .ok r1 ∧
        r1.out = r.out ++ written ∧
        written.flatten.length
          = ((mw.drop i).take (row.takeWhile non_empty).length).sum
            + 6 * (row.takeWhile non_empty).length := by
  induction row with
  | nil => intro i r _ _; exact ⟨r, [], rfl, by simp, by simp⟩
  | cons content rest ih =>
    intro i r h hicon
    by_cases hlen : content.length = 0
    · refine ⟨r, [], by simp [ls_line_loop, hlen], by simp, ?_⟩
      simp [List.takeWhile, non_empty, hlen]
    · obtain ⟨w, hw, hle⟩ := h 0 (by simp)
      simp only [Nat.add_zero, List.getD_cons_zero] at hw hle
      have hrest : ∀ j, j < rest.length →
          ∃ w, mw[i + 1 + j]? = some w ∧ (rest.getD j []).length ≤ w := by
        intro j hj
        obtain ⟨w1, hw1, hle1⟩ := h (j + 1) (by simpa using hj)
        refine ⟨w1, ?_, ?_⟩
        · rw [← hw1]; congr 1; omega
        · simpa using hle1
      have hne : content ≠ [] := fun e => hlen (by simp [e])
      have hic := hicon content (by simp) hne
      obtain ⟨r1, written, hr1, hout, hwr⟩ := ih (i + 1)
        { count := (fetch_string env ic r.count content (options env ic content).1
            (options env ic content).2.1 (options env ic content).2.2).1,
          out := r.out ++ [(fetch_string env ic r.count content (options env ic content).1
            (options env ic content).2.1 (options env ic content).2.2).2,
            if env.isDirectory content then env.chalk "blue" (lit "/ ") else lit "  ",
            List.replicate (w - content.length + 1) 32] } hrest
        (fun e he => hicon e (List.mem_cons_of_mem _ he))
      refine ⟨r1, [(fetch_string env ic r.count content (options env ic content).1
            (options env ic content).2.1 (options env ic content).2.2).2,
            if env.isDirectory content then env.chalk "blue" (lit "/ ") else lit "  ",
            List.replicate (w - content.length + 1) 32] ++ written, ?_, ?_, ?_⟩
      · simp only [ls_line_loop, hlen, if_false, space_ok mw i content w hw hle]
        exact hr1
      · rw [hout]; simp
      · have hnon : non_empty content = true := by simp [non_empty, hlen]
        have hmark : (if env.isDirectory content then env.chalk "blue" (lit "/ ")
            else lit "  ").length = 2 := by
          split
          · rw [hchalk]; exact length_lit_marker.1
          · exact length_lit_marker.2
        have hfetch : (fetch_string env ic r.count content (options env ic content).1
            (options env ic content).2.1 (options env ic content).2.2).2.length
            = 1 + 2 + content.length := by
          simp only [fetch_string, hchalk, List.length_append, hic, length_lit_marker.2]
        simp only [List.takeWhile, hnon, List.length_cons, drop_of_getElem? mw i w hw,
          List.take_succ_cons, List.sum_cons, List.flatten_append, List.length_append,
          List.flatten_cons, List.flatten_nil, List.length_nil, List.length_replicate,
          hwr, hmark, hfetch]
        omega

/-- C20: when `chalk` keeps the length of its text (color escapes are ignored) and every
icon looked up by `fetch_string` has length 1, a non-empty cell of column `i` is written
by `ls_line` as `max_widths[i] + 6` code units (icon, two spaces, name, marker, padding);
after the newline, a row is written within the terminal width when the accepted grid
passes the fit test, and on `sum(max_widths) + 6 * column_count` code units exactly when
it has no empty cell. -/
theorem C20_rendered_width (env : Env) (ic : Icons) (names : List JStr) (W : Int)
    (hchalk : ∀ color text, (env.chalk color text).length = text.length)
    (hicon : ∀ e ∈ names,
      (fetch_value env ic (options env ic e).1 (options env ic e).2.2).length = 1) :
    (∀ row ∈ (layout names W).1, ∀ i, i < row.length → row.getD i [] ≠ [] →
      ∀ count : Count, ∃ w sp, (layout names W).2[i]? = some w ∧
        space (layout names W).2 i (row.getD i []) = .ok sp ∧
        (fetch_string env ic count (row.getD i []) (options env ic (row.getD i [])).1
            (options env ic (row.getD i [])).2.1 (options env ic (row.getD i [])).2.2).2.length
          + (if env.isDirectory (row.getD i []) then env.chalk "blue" (lit "/ ")
              else lit "  ").length
          + sp.length = w + 6) ∧
    (∀ row ∈ (layout names W).1, ∀ r : Render, ∃ r1 written,
      ls_line env ic (layout names W).2 row r = .ok r1 ∧
      r1.out = r.out ++ lit "\n" :: written ∧
      (fits names W (column_count (layout names W).1) = true →
        (written.flatten.length : Int) ≤ W) ∧
      ((∀ e ∈ row, e ≠ []) →
        written.flatten.length
          = (layout names W).2.sum + 6 * column_count (layout names W).1)) := by
  have hcell : ∀ row ∈ (layout names W).1, ∀ e ∈ row, e ≠ [] →
      (fetch_value env ic (options env ic e).1 (options env ic e).2.2).length = 1 := by
    intro row hrow e he hne
    rcases mem_layout_cell names W row hrow e he with h | h
    · exact hicon e h
    · exact absurd h hne
  constructor
  · intro row hrow i hi hne count
    obtain ⟨w, hw, hle⟩ := layout_widths_ge names W row hrow i hi
    have hmem : row.getD i [] ∈ row := by
      rw [List.getD_eq_getElem?_getD, List.getElem?_eq_getElem hi]
      exact List.getElem_mem hi
    have hic := hcell row hrow _ hmem hne
    refine ⟨w, _, hw, space_ok _ i _ w hw hle, ?_⟩
    have hmark : (if env.isDirectory (row.getD i []) then env.chalk "blue" (lit "/ ")
        else lit "  ").length = 2 := by
      split
      · rw [hchalk]; exact length_lit_marker.1
      · exact length_lit_marker.2
    simp only [fetch_string, hchalk, List.length_append, hic, length_lit_marker.2, hmark,
      List.length_replicate]
    omega
  · intro row hrow r
    obtain ⟨r1, written, hr1, hout, hwr⟩ := ls_line_loop_width env ic (layout names W).2
      hchalk row 0 { r with out := r.out ++ [lit "\n"] }
      (fun j hj => by simpa using layout_widths_ge names W row hrow j hj)
      (hcell row hrow)
    have hrowlen := layout_rows_length names W row hrow
    have hwlen := layout_widths_length names W
    refine ⟨r1, written, hr1, by rw [hout]; simp, ?_, ?_⟩
    · intro hfit
      have hw : (layout names W).2
          = widths_at names (column_count (layout names W).1) := by
        rw [column_count_layout, layout_eq]
      have hsum : ((layout names W).2.sum : Int)
          + 6 * (column_count (layout names W).1 : Int) ≤ W := by
        rw [← in_line_iff]
        unfold fits at hfit
        rw [← hw] at hfit
        exact hfit
      have hp : (row.takeWhile non_empty).length ≤ column_count (layout names W).1 := by
        rw [← hrowlen]
        exact length_takeWhile_le_length non_empty row
      have hs := sum_take_le (layout names W).2 (row.takeWhile non_empty).length
      have hnat : written.flatten.length
          ≤ (layout names W).2.sum + 6 * column_count (layout names W).1 := by
        rw [hwr, List.drop_zero]
        omega
      omega
    · intro hall
      have htw : row.takeWhile non_empty = row := by
        apply takeWhile_of_all
        intro e he
        have := hall e he
        simpa [non_empty] using this
      rw [hwr, htw, hrowlen, ← hwlen]
      simp

/-- C20 on three one-letter entries at width 20, with icons of length 1: the first row
`a b` is written as 14 code units after the newline, and `14 = (1 + 1) + 6 * 2`. -/
theorem C20_rendered_width_witness :
    [lit "a", lit "b"] ∈ (layout three_entries 20).1 ∧
      (layout three_entries 20).2.sum + 6 * column_count (layout three_entries 20).1 = 14 ∧
      ∃ r1 written,
        ls_line example_env example_icons (layout three_entries 20).2 [lit "a", lit "b"]
          { count := initial_count, out := [] } = .ok r1 ∧
        r1.out = [] ++ lit "\n" :: written ∧ written.flatten.length = 14 := by
  obtain ⟨r1, written, h1, h2, _, h4⟩ :=
    (C20_rendered_width example_env example_icons three_entries 20 (fun _ _ => rfl)
      (by decide)).2 [lit "a", lit "b"] (by decide) { count := initial_count, out := [] }
  exact ⟨by decide, by decide, r1, written, h1, h2, (h4 (by decide)).trans (by decide)⟩

end ColorLS
